import Mathlib

/-!
Verification development for the Calendar-Scrapper repository.

The definitions below are a shallow embedding of the JavaScript/TypeScript
source (src/functions/index.js and src/src/services/sheetScraper.ts).
Strings are handled through their character lists; JavaScript regular
expressions are embedded as explicit character-level scanners that follow the
backtracking behaviour of the concrete patterns used by the source (all of
which are simple enough that the greedy/backtracking behaviour is
deterministic, as noted at each definition).
-/

namespace CalScrap

/-- Decide whether a character is an ASCII digit, the JS regex class \d. -/
def isDigitC (c : Char) : Bool := '0' ≤ c && c ≤ '9'

/-- JS regex class \s restricted to the whitespace characters that occur in
sheet cells (space, tab, CR, LF). -/
def isSpaceC (c : Char) : Bool := c = ' ' || c = '\t' || c = '\n' || c = '\r'

/-- Decide whether a character is an ASCII uppercase letter, the class [A-Z]. -/
def isUpperC (c : Char) : Bool := 'A' ≤ c && c ≤ 'Z'

/-- Decide whether a character is an ASCII letter, the class [A-Z] under the i flag. -/
def isLetterC (c : Char) : Bool := ('A' ≤ c && c ≤ 'Z') || ('a' ≤ c && c ≤ 'z')

/-- Numeric value of a digit character. -/
def digitVal (c : Char) : Nat := c.toNat - '0'.toNat

/-- Value of a list of digit characters read in base 10; JS parseInt on the
captured digit group. -/
def natOfDigits (cs : List Char) : Nat := cs.foldl (fun a c => 10 * a + digitVal c) 0

/-- Decimal rendering of a natural number (JS template literal of a number). -/
def natStrAux : Nat → Nat → List Char → List Char
  | 0, _, acc => acc
  | fuel+1, n, acc =>
    let d : Char := Char.ofNat (48 + n % 10)
    if n < 10 then d :: acc else natStrAux fuel (n / 10) (d :: acc)

/-- Decimal rendering of a natural number as a string. -/
def natStr (n : Nat) : String := ⟨natStrAux (n + 1) n []⟩

/-- JS String(n).padStart(2, "0"). -/
def pad2 (n : Nat) : String :=
  let s := natStr n
  if s.length < 2 then "0" ++ s else s

/-- Whether sub occurs as a prefix of the character list. -/
def isPrefixC : List Char → List Char → Bool
  | [], _ => true
  | _ :: _, [] => false
  | a :: as, b :: bs => a = b && isPrefixC as bs

/-- Whether sub occurs contiguously inside the character list. -/
def containsC (sub : List Char) : List Char → Bool
  | [] => sub.isEmpty
  | c :: r => isPrefixC sub (c :: r) || containsC sub r

/-- JS String.prototype.includes. -/
def strContains (s sub : String) : Bool := containsC sub.data s.data

/-- JS String.prototype.trim (restricted to the \s characters above). -/
def jsTrim (s : String) : String :=
  ⟨((s.data.dropWhile isSpaceC).reverse.dropWhile isSpaceC).reverse⟩

/-- Splitting a character list at newline characters, JS split("\n"). -/
def splitNlC : List Char → List (List Char)
  | [] => [[]]
  | c :: r =>
    if c = '\n' then [] :: splitNlC r
    else
      match splitNlC r with
      | h :: t => (c :: h) :: t
      | [] => [[c]]

/-- JS cellValue.split("\n").filter(line => line.trim()): the lines of a cell
whose trimmed form is nonempty (the untrimmed lines are kept). -/
def jsLines (s : String) : List String :=
  ((splitNlC s.data).map (fun l => (⟨l⟩ : String))).filter (fun l => jsTrim l ≠ "")

/-- First success of an option-valued function over a list, used for the
backtracking alternatives of a bounded regex quantifier. -/
def firstSome : List α → (α → Option β) → Option β
  | [], _ => none
  | a :: r, f => match f a with | some b => some b | none => firstSome r f

/-! ### Time-slot header matching

The source pattern is /(\d+[:.]\d+[AP]M)\s*-\s*(\d+[:.]\d+[AP]M)/g
(functions/index.js parseTimeSlots and sheetScraper.ts parseTimeSlots).
Every concatenation point of the pattern joins disjoint character classes, so
greedy matching needs no backtracking and the scanner below is exact. -/

/-- Match \d+[:.]\d+[AP]M at the head of the list; returns the matched
characters and the rest. -/
def matchClock (cs : List Char) : Option (List Char × List Char) :=
  let (d1, r1) := cs.span isDigitC
  if d1.isEmpty then none else
  match r1 with
  | sep :: r2 =>
    if sep = ':' || sep = '.' then
      let (d2, r3) := r2.span isDigitC
      if d2.isEmpty then none else
      match r3 with
      | ap :: m :: r4 =>
        if (ap = 'A' || ap = 'P') && m = 'M' then
          some (d1 ++ sep :: (d2 ++ [ap, 'M']), r4)
        else none
      | _ => none
    else none
  | [] => none

/-- Match the full time-range pattern at the head of the list. -/
def matchTimeRangeAt (cs : List Char) : Option ((List Char × List Char) × List Char) :=
  match matchClock cs with
  | none => none
  | some (g1, r1) =>
    match r1.dropWhile isSpaceC with
    | c :: r3 =>
      if c = '-' then
        match matchClock (r3.dropWhile isSpaceC) with
        | some (g2, r5) => some ((g1, g2), r5)
        | none => none
      else none
    | [] => none

/-- All matches of the time-range pattern, left to right, continuing after
each match (JS exec loop with the g flag). Fuel bounds the scan by the input
length; every step either consumes the match or advances one character. -/
def timeMatchesAux : Nat → List Char → List (List Char × List Char)
  | 0, _ => []
  | _, [] => []
  | fuel+1, c :: rest =>
    match matchTimeRangeAt (c :: rest) with
    | some (m, rest') => m :: timeMatchesAux fuel rest'
    | none => timeMatchesAux fuel rest

/-- All time-range matches in a string. -/
def timeMatches (s : String) : List (List Char × List Char) :=
  timeMatchesAux s.data.length s.data

/-- JS str.replace(".", ":"): replace the first period. The captured clock
group contains at most one separator so this normalises it fully. -/
def replDotAux : List Char → List Char
  | [] => []
  | c :: r => if c = '.' then ':' :: r else c :: replDotAux r

/-- Replace the first period of a string by a colon. -/
def replaceFirstDot (s : String) : String := ⟨replDotAux s.data⟩

/-- A parsed time slot; source field names are start and end
(end is a Lean keyword, rendered stop). -/
structure TimeSlot where
  start : String
  stop : String
  deriving DecidableEq

/-- The slot recovered from one header cell: the last time-range match, with
the period separator normalised (functions/index.js lines 260-277). An empty
cell is skipped by the truthiness test in the source. -/
def cellSlot (cell : String) : Option TimeSlot :=
  if cell = "" then none
  else
    match (timeMatches cell).getLast? with
    | some (g1, g2) => some ⟨replaceFirstDot ⟨g1⟩, replaceFirstDot ⟨g2⟩⟩
    | none => none

/-- The tempSlots list collected for one candidate header row: cells from
column index 2 onward, in column order, keeping the cells with a match. -/
def rowTempSlots (row : List String) : List TimeSlot :=
  (row.drop 2).filterMap cellSlot

/-- A row qualifies as the header row when it yields at least 5 slots. -/
def rowQualifies (row : List String) : Bool := 5 ≤ (rowTempSlots row).length

/-- Scan of candidate header rows with a bound on the number of rows
inspected (the source bound is Math.min(rawData.length, 40)). -/
def parseTimeSlotsAux : Nat → List (List String) → List TimeSlot
  | 0, _ => []
  | _, [] => []
  | fuel+1, row :: rest =>
    let t := rowTempSlots row
    if 5 ≤ t.length then t else parseTimeSlotsAux fuel rest

/-- functions/index.js parseTimeSlots: scan at most the first 40 rows; the
first row yielding at least 5 slots wins; otherwise the empty list. -/
def parseTimeSlots (grid : List (List String)) : List TimeSlot :=
  parseTimeSlotsAux 40 grid

/-! ### Dates and week numbers -/

/-- A date as constructed by JS new Date(year, month, day): the month is
0-indexed. Modelling note: for a fixed runtime timezone, Date#toISOString and
the getFullYear/getMonth/getDate accessors are functions of these three
components, which we carry directly. -/
structure JsDate where
  year : Nat
  month : Nat
  day : Nat
  deriving DecidableEq

/-- Rendering of Date#toISOString, modelled as an injective rendering of the
date components (the source only uses it as an opaque identity component). -/
def JsDate.isoString (d : JsDate) : String :=
  natStr d.year ++ "-" ++ natStr d.month ++ "-" ++ natStr d.day ++ "T00:00:00.000Z"

/-- The yyyy-mm-dd key fragment built by syncUserCalendar from a date:
getFullYear unpadded, month+1 and day padded to two digits. -/
def dateKeyStr (d : JsDate) : String :=
  natStr d.year ++ "-" ++ pad2 (d.month + 1) ++ "-" ++ pad2 d.day

/-- Candidates for a greedy \d{1,2} group at the head of the list, longest
first (the JS engine backtracks from two digits to one). -/
def grab12 : List Char → List (List Char × List Char)
  | a :: b :: r =>
    if isDigitC a then
      if isDigitC b then [([a, b], r), ([a], b :: r)] else [([a], b :: r)]
    else []
  | [a] => if isDigitC a then [([a], [])] else []
  | [] => []

/-- A \d{4} group at the head of the list. -/
def grab4 : List Char → Option (List Char × List Char)
  | a :: b :: c :: d :: r =>
    if isDigitC a && isDigitC b && isDigitC c && isDigitC d then some ([a, b, c, d], r)
    else none
  | _ => none

/-- Match (\d{1,2})\/(\d{1,2})\/(\d{4}) at the head of the list, with the
greedy backtracking of the bounded quantifiers. -/
def tryDateAt (cs : List Char) : Option (Nat × Nat × Nat) :=
  firstSome (grab12 cs) fun (ds, r1) =>
    match r1 with
    | '/' :: r2 =>
      firstSome (grab12 r2) fun (ms, r3) =>
        match r3 with
        | '/' :: r4 =>
          match grab4 r4 with
          | some (ys, _) => some (natOfDigits ds, natOfDigits ms, natOfDigits ys)
          | none => none
        | _ => none
    | _ => none

/-- First match of the date pattern anywhere in the list (unanchored JS
match, advancing one character when a position fails). -/
def findDateAux : Nat → List Char → Option (Nat × Nat × Nat)
  | 0, _ => none
  | _, [] => none
  | fuel+1, c :: r =>
    match tryDateAt (c :: r) with
    | some m => some m
    | none => findDateAux fuel r

/-- First date-pattern match in a string. -/
def findDate (s : String) : Option (Nat × Nat × Nat) := findDateAux s.data.length s.data

/-- functions/index.js isValidDate: the date pattern tests positively. -/
def isValidDate (s : String) : Bool := (findDate s).isSome

/-- functions/index.js parseDate: day-first D/M/YYYY giving
new Date(year, month - 1, day); when nothing matches the source falls back to
new Date(), the wall-clock now passed here as a parameter. -/
def parseDate (now : JsDate) (s : String) : JsDate :=
  match findDate s with
  | some (d, m, y) => ⟨y, m - 1, d⟩
  | none => now

/-- First match of /Week\s+(\d+)/ in a character list: the literal Week, at
least one whitespace character, then digits. On failure the scan advances by
one character. -/
def weekMatchAux : Nat → List Char → Option Nat
  | 0, _ => none
  | _, [] => none
  | fuel+1, c :: r =>
    match c :: r with
    | 'W' :: 'e' :: 'e' :: 'k' :: r2 =>
      let (sp, r3) := r2.span isSpaceC
      if sp.isEmpty then weekMatchAux fuel r
      else
        let (ds, _) := r3.span isDigitC
        if ds.isEmpty then weekMatchAux fuel r else some (natOfDigits ds)
    | _ => weekMatchAux fuel r

/-- Week number recovered from a cell. The source guards with
cell.includes("Week") before running the regex; a successful match implies the
substring test, so the Option result subsumes both checks. -/
def weekOf (s : String) : Option Nat := weekMatchAux s.data.length s.data

/-- functions/index.js isValidDay: fixed vocabulary of day names, matched by
substring inclusion on a truthy (nonempty) string. -/
def validDays : List String :=
  ["Monday", "Tuesday", "Wednesday", "Thursday", "Friday", "Saturday", "Sunday",
   "Mon", "Tue", "Wed", "Thu", "Thurs", "Fri", "Sat", "Sun",
   "Tues", "Weds"]

/-- Whether a cell names a day of the week. -/
def isValidDay (day : String) : Bool :=
  validDays.any (fun d => day ≠ "" && strContains day d)

/-! ### Course-line matching

Multi-section pattern /([A-Z][A-Za-z0-9&-]+)-([A-Z])\s*\(([^)]+)\)/: the
first group's greedy class contains the hyphen, so the engine backtracks over
the split point between that group and the literal hyphen; all other
concatenation points join disjoint classes. The scanner below tries split
points longest-first, exactly like the backtracking engine. -/

/-- Character class [A-Za-z0-9&-] of the multi-section name group. -/
def isMultiNameC (c : Char) : Bool :=
  isLetterC c || isDigitC c || c = '&' || c = '-'

/-- Character class [A-Za-z0-9&] of the single-section name group. -/
def isSingleNameC (c : Char) : Bool :=
  isLetterC c || isDigitC c || c = '&'

/-- Match -([A-Z])\s*\(([^)]+)\) at the head of the list, the tail of the
multi-section pattern after the name group. -/
def matchMultiTail (cs : List Char) : Option (Char × List Char × List Char) :=
  match cs with
  | '-' :: s :: r1 =>
    if isUpperC s then
      match r1.dropWhile isSpaceC with
      | '(' :: r3 =>
        let (loc, r4) := r3.span (fun c => c ≠ ')')
        if loc.isEmpty then none
        else
          match r4 with
          | ')' :: r5 => some (s, loc, r5)
          | _ => none
      | _ => none
    else none
  | _ => none

/-- Backtracking over the greedy name group: split points from the longest
prefix of the class run down to length one. -/
def tryMultiSplit (first : Char) (core after : List Char) :
    Nat → Option (List Char × Char × List Char × List Char)
  | 0 => none
  | k+1 =>
    match matchMultiTail (core.drop (k+1) ++ after) with
    | some (s, loc, rest) => some (first :: core.take (k+1), s, loc, rest)
    | none => tryMultiSplit first core after k

/-- Match the whole multi-section pattern at the head of the list, returning
(name characters, section character, location characters, rest). -/
def tryMultiAt : List Char → Option (List Char × Char × List Char × List Char)
  | [] => none
  | c :: r =>
    if isUpperC c then
      let core := r.takeWhile isMultiNameC
      tryMultiSplit c core (r.drop core.length) core.length
    else none

/-- First multi-section match anywhere in a string. -/
def findMultiAux : Nat → List Char → Option (String × Char × String)
  | 0, _ => none
  | _, [] => none
  | fuel+1, c :: r =>
    match tryMultiAt (c :: r) with
    | some (name, s, loc, _) => some (⟨name⟩, s, ⟨loc⟩)
    | none => findMultiAux fuel r

/-- First match of the multi-section pattern in a string. -/
def findMulti (s : String) : Option (String × Char × String) :=
  findMultiAux s.data.length s.data

/-- Match the single-section pattern ([A-Z][A-Za-z0-9&]+)\s*\(([^)]+)\) at
the head of the list. The name class excludes whitespace, parentheses and the
hyphen, so greedy matching is deterministic here. -/
def trySingleAt : List Char → Option (List Char × List Char × List Char)
  | [] => none
  | c :: r =>
    if isUpperC c then
      let core := r.takeWhile isSingleNameC
      if core.isEmpty then none
      else
        match (r.drop core.length).dropWhile isSpaceC with
        | '(' :: r3 =>
          let (loc, r4) := r3.span (fun ch => ch ≠ ')')
          if loc.isEmpty then none
          else
            match r4 with
            | ')' :: r5 => some (c :: core, loc, r5)
            | _ => none
        | _ => none
    else none

/-- First single-section match anywhere in a string. -/
def findSingleAux : Nat → List Char → Option (String × String)
  | 0, _ => none
  | _, [] => none
  | fuel+1, c :: r =>
    match trySingleAt (c :: r) with
    | some (name, loc, _) => some (⟨name⟩, ⟨loc⟩)
    | none => findSingleAux fuel r

/-- First match of the single-section pattern in a string. -/
def findSingle (s : String) : Option (String × String) :=
  findSingleAux s.data.length s.data

/-! ### Schedule events -/

/-- A parsed schedule event (functions/index.js parseCellEvents). The source
field section is a Lean keyword and is rendered sect. -/
structure ScheduleEvent where
  id : String
  courseCode : String
  courseName : String
  sect : String
  location : String
  professor : String
  date : JsDate
  timeSlot : TimeSlot
  week : Nat
  day : String
  status : String
  isCancelled : Bool
  isRed : Bool
  hasStrikethrough : Bool
  deriving DecidableEq

/-- Resolution of one cell line against the two patterns of
functions/index.js parseCellEvents (multi-section first, then
single-section); returns (courseName, section, location, courseCode). -/
def lineCourse (line : String) : Option (String × String × String × String) :=
  match findMulti line with
  | some (name, s, loc) => some (name, ⟨[s]⟩, loc, name ++ "-" ++ (⟨[s]⟩ : String))
  | none =>
    match findSingle line with
    | some (name, loc) => some (name, "1", loc, name)
    | none => none

/-- functions/index.js parseCellEvents: split the cell into nonblank lines,
resolve each against the selection filter, and pair professors by line index
with fallback to line 0 then the empty string. -/
def parseCellEvents (cellValue : String) (week : Nat) (day : String) (date : JsDate)
    (timeSlot : TimeSlot) (selectedCourses : List String) (professorCell : String)
    (isCancelled : Bool) : List ScheduleEvent :=
  let lines := jsLines cellValue
  let profLines := jsLines professorCell
  lines.enum.filterMap fun (k, line) =>
    match lineCourse line with
    | some (name, sec, loc, code) =>
      if selectedCourses.contains code then
        let professor := (profLines.get? k).getD ((profLines.get? 0).getD "")
        some { id := code ++ "-" ++ loc ++ "-" ++ date.isoString ++ "-" ++ timeSlot.start,
               courseCode := code, courseName := name, sect := sec, location := loc,
               professor := jsTrim professor, date := date, timeSlot := timeSlot,
               week := week, day := day,
               status := if isCancelled then "cancelled" else "active",
               isCancelled := isCancelled, isRed := isCancelled,
               hasStrikethrough := isCancelled }
      else none
    | none => none

/-- Events of one (course row, professor row) pair of a day block: columns
from 2 up to min(row length, slot count + 2), each mapped to
timeSlots[j - 2]; empty cells are skipped (functions/index.js lines 509-554).
The cancellation test receives the column index (the row index is fixed by
the caller). -/
def pairEvents (slots : List TimeSlot) (isCan : Nat → Bool)
    (courseRow profRow : List String) (week : Nat) (day : String) (date : JsDate)
    (sel : List String) : List ScheduleEvent :=
  (List.range (min courseRow.length (slots.length + 2))).drop 2 |>.flatMap fun j =>
    let cell := (courseRow.get? j).getD ""
    let prof := (profRow.get? j).getD ""
    match slots.get? (j - 2) with
    | some ts =>
      if cell = "" then []
      else parseCellEvents cell week day date ts sel prof (isCan j)
    | none => []

/-- Week-state update of one row: currentWeek is replaced when column A
matches the Week pattern. -/
def stepWeek (w : Nat) (cell0 : String) : Nat :=
  match weekOf cell0 with
  | some n => n
  | none => w

/-- Date-state update of one row: currentDate is replaced when column A
matches the date pattern (now is the parseDate wall-clock fallback). -/
def stepDate (now d : JsDate) (cell0 : String) : JsDate :=
  if isValidDate cell0 then parseDate now cell0 else d

/-- The two (course row, professor row) pairs processed for one day block:
rows i/i+1 and i+2/i+3 of the source loop. -/
def dayBlock (slots : List TimeSlot) (styles : Nat → Nat → Bool) (sel : List String)
    (i : Nat) (row : List String) (rest : List (List String)) (w : Nat)
    (day : String) (d : JsDate) : List ScheduleEvent :=
  pairEvents slots (fun j => styles i j) row ((rest.get? 0).getD []) w day d sel
    ++ pairEvents slots (fun j => styles (i + 2) j) ((rest.get? 1).getD [])
        ((rest.get? 2).getD []) w day d sel

/-- Row walk of functions/index.js parseScheduleEvents: carried state is the
current week (updated by a Week token in column A) and the current date
(updated by a date in column A); a day name in column B triggers a 4-row day
block using the current row, its successor, and the two rows after those. The
walk advances one row at a time and the styles map is keyed by absolute
(row, column). The parameter now is the wall-clock date used by the source
for the initial currentDate and the parseDate fallback. -/
def parseRows (slots : List TimeSlot) (styles : Nat → Nat → Bool) (sel : List String)
    (now : JsDate) : Nat → List (List String) → Nat → JsDate → List ScheduleEvent
  | _, [], _, _ => []
  | i, row :: rest, w, d =>
    let cell0 := (row.get? 0).getD ""
    let w' := stepWeek w cell0
    let d' := stepDate now d cell0
    let day := (row.get? 1).getD ""
    let blockEvents :=
      if day ≠ "" && isValidDay day then dayBlock slots styles sel i row rest w' day d'
      else []
    blockEvents ++ parseRows slots styles sel now (i + 1) rest w' d'

/-- functions/index.js parseScheduleEvents: empty result when no time slots
were recovered, otherwise the row walk starting with week 1 and
currentDate = new Date() (the parameter now). -/
def parseScheduleEvents (grid : List (List String)) (sel : List String)
    (styles : Nat → Nat → Bool) (now : JsDate) : List ScheduleEvent :=
  let slots := parseTimeSlots grid
  if slots.length = 0 then [] else parseRows slots styles sel now 0 grid 1 now

/-- Predicate used by the amended determinism claim: a row whose column B
holds a day name. -/
def isDayRow (row : List String) : Bool := isValidDay ((row.get? 1).getD "")

/-- Predicate used by the amended determinism claim: a row whose column A
holds a date. -/
def isDateRow (row : List String) : Bool := isValidDate ((row.get? 0).getD "")

/-- Well-formedness hypothesis of the amended determinism claim: every day
row is preceded (weakly, a row may carry both) by a date row. -/
def dayRowsDated (grid : List (List String)) : Prop :=
  ∀ i row, grid.get? i = some row → isDayRow row = true →
    ∃ j rowj, j ≤ i ∧ grid.get? j = some rowj ∧ isDateRow rowj = true

/-! ### Course catalog extraction (functions/index.js extractCourses) -/

/-- Character class \w of the JS word-boundary assertion. -/
def isWordC (c : Char) : Bool := isLetterC c || isDigitC c || c = '_'

/-- ASCII lowercase conversion, JS toLowerCase on the characters in use. -/
def asciiLower (c : Char) : Char :=
  if isUpperC c then Char.ofNat (c.toNat + 32) else c

/-- ASCII uppercase conversion, JS toUpperCase on the characters in use. -/
def asciiUpper (c : Char) : Char :=
  if 'a' ≤ c && c ≤ 'z' then Char.ofNat (c.toNat - 32) else c

/-- JS code.replace(/\s+/g, "-"): each maximal whitespace run becomes one
hyphen. Fuel bounds the scan by the input length. -/
def collapseWsAux : Nat → List Char → List Char
  | 0, _ => []
  | _, [] => []
  | fuel+1, c :: r =>
    if isSpaceC c then '-' :: collapseWsAux fuel (r.dropWhile isSpaceC)
    else c :: collapseWsAux fuel r

/-- The course id stamped by extractCourses:
code.replace(/\s+/g, "-").toLowerCase(). -/
def courseIdOf (code : String) : String :=
  ⟨(collapseWsAux code.data.length code.data).map asciiLower⟩

/-- A catalog entry; the source field section is rendered sect. -/
structure Course where
  id : String
  code : String
  name : String
  sect : String
  location : String
  deriving DecidableEq

/-- All multi-section matches of a cell, left to right, continuing after each
match (the g flag). -/
def findMultiAllAux : Nat → List Char → List (String × Char)
  | 0, _ => []
  | _, [] => []
  | fuel+1, c :: r =>
    match tryMultiAt (c :: r) with
    | some (name, s, _, rest) => (⟨name⟩, s) :: findMultiAllAux fuel rest
    | none => findMultiAllAux fuel r

/-- All multi-section matches in a string. -/
def findMultiAll (s : String) : List (String × Char) :=
  findMultiAllAux s.data.length s.data

/-- Variant of the single-section matcher that also returns the full matched
substring (needed for the disambiguation guard) and the rest of the input. -/
def trySingleFull : List Char → Option (List Char × List Char × List Char)
  | [] => none
  | c :: r =>
    if isUpperC c then
      let core := r.takeWhile isSingleNameC
      if core.isEmpty then none
      else
        let afterCore := r.drop core.length
        let sp := afterCore.takeWhile isSpaceC
        match afterCore.dropWhile isSpaceC with
        | '(' :: r3 =>
          let (loc, r4) := r3.span (fun ch => ch ≠ ')')
          if loc.isEmpty then none
          else
            match r4 with
            | ')' :: r5 =>
              some (c :: core, (c :: core) ++ sp ++ '(' :: (loc ++ [')']), r5)
            | _ => none
        | _ => none
    else none

/-- The disambiguation guard regex (hyphen, uppercase letter, optional
whitespace, opening parenthesis) tested against a matched substring. -/
def guardTest : List Char → Bool
  | [] => false
  | c :: r =>
    (c = '-' && (match r with
      | c2 :: r2 =>
        isUpperC c2 && (match r2.dropWhile isSpaceC with
          | '(' :: _ => true
          | _ => false)
      | [] => false))
    || guardTest r

/-- All single-section matches of a cell with the \b assertion: the Boolean
argument records whether a word boundary precedes the current position (true
at the start; after a match the previous character is the closing
parenthesis, a non-word character). -/
def findSingleAllAux : Nat → Bool → List Char → List (String × List Char)
  | 0, _, _ => []
  | _, _, [] => []
  | fuel+1, bnd, c :: r =>
    if bnd then
      match trySingleFull (c :: r) with
      | some (name, matched, rest) => (⟨name⟩, matched) :: findSingleAllAux fuel true rest
      | none => findSingleAllAux fuel (!isWordC c) r
    else findSingleAllAux fuel (!isWordC c) r

/-- All single-section matches in a string (with their matched substrings). -/
def findSingleAll (s : String) : List (String × List Char) :=
  findSingleAllAux s.data.length true s.data

/-- The catalog candidates contributed by one cell, in source order:
multi-section matches first, then guard-filtered single-section matches. -/
def cellCourseCands (cell : String) : List Course :=
  ((findMultiAll cell).map fun pr =>
    let code := pr.1 ++ "-" ++ (⟨[pr.2]⟩ : String)
    ⟨courseIdOf code, code, pr.1, ⟨[pr.2]⟩, ""⟩)
  ++ (((findSingleAll cell).filter fun pr => !guardTest pr.2).map fun pr =>
    ⟨courseIdOf pr.1, pr.1, pr.1, "1", ""⟩)

/-- First-seen deduplication by course code (the coursesSet of the source). -/
def dedupByCode : List Course → List String → List Course
  | [], _ => []
  | c :: r, seen =>
    if seen.contains c.code then dedupByCode r seen
    else c :: dedupByCode r (c.code :: seen)

/-- All candidates of the grid: rows from index 2, columns from index 2. -/
def allCands (grid : List (List String)) : List Course :=
  (grid.drop 2).flatMap fun row => (row.drop 2).flatMap cellCourseCands

/-- functions/index.js extractCourses: dedup by code then sort alphabetically
by code (localeCompare modelled as lexicographic string order; the source
sort is stable and its comparator is a total order). -/
def extractCourses (grid : List (List String)) : List Course :=
  (dedupByCode (allCands grid) []).mergeSort fun a b => a.code ≤ b.code

/-! ### The sheetScraper.ts cell parser (combined-section aware) -/

/-- Case-insensitive comparison against a lowercase letter. -/
def lowerIs (c t : Char) : Bool := asciiLower c = t

/-- Match -([A-Z])\s+and\s+([A-Z])\s*\(([^)]+)\) at the head of the list
under the i flag (the tail of the combined-section pattern after the name
group); returns (first section, second section, location, rest). -/
def matchCombinedTail (cs : List Char) : Option (Char × Char × List Char × List Char) :=
  match cs with
  | '-' :: s1 :: r1 =>
    if isLetterC s1 then
      let (sp1, r2) := r1.span isSpaceC
      if sp1.isEmpty then none
      else
        match r2 with
        | a :: n :: d :: r3 =>
          if lowerIs a 'a' && lowerIs n 'n' && lowerIs d 'd' then
            let (sp2, r4) := r3.span isSpaceC
            if sp2.isEmpty then none
            else
              match r4 with
              | s2 :: r5 =>
                if isLetterC s2 then
                  match r5.dropWhile isSpaceC with
                  | '(' :: r6 =>
                    let (loc, r7) := r6.span (fun ch => ch ≠ ')')
                    if loc.isEmpty then none
                    else
                      match r7 with
                      | ')' :: r8 => some (s1, s2, loc, r8)
                      | _ => none
                  | _ => none
                else none
              | [] => none
          else none
        | _ => none
    else none
  | _ => none

/-- Backtracking over the combined-section name group, longest split first. -/
def tryCombinedSplit (first : Char) (core after : List Char) :
    Nat → Option (List Char × Char × Char × List Char)
  | 0 => none
  | k+1 =>
    match matchCombinedTail (core.drop (k+1) ++ after) with
    | some (s1, s2, loc, _) => some (first :: core.take (k+1), s1, s2, loc)
    | none => tryCombinedSplit first core after k

/-- Match the combined-section pattern
([A-Z][A-Za-z0-9&-]+)-([A-Z])\s+and\s+([A-Z])\s*\(([^)]+)\)/i at the head of
the list. -/
def tryCombinedAt : List Char → Option (List Char × Char × Char × List Char)
  | [] => none
  | c :: r =>
    if isLetterC c then
      let core := r.takeWhile isMultiNameC
      tryCombinedSplit c core (r.drop core.length) core.length
    else none

/-- First combined-section match anywhere in a string. -/
def findCombinedAux : Nat → List Char → Option (String × Char × Char × String)
  | 0, _ => none
  | _, [] => none
  | fuel+1, c :: r =>
    match tryCombinedAt (c :: r) with
    | some (name, s1, s2, loc) => some (⟨name⟩, s1, s2, ⟨loc⟩)
    | none => findCombinedAux fuel r

/-- First match of the combined-section pattern in a string. -/
def findCombined (s : String) : Option (String × Char × Char × String) :=
  findCombinedAux s.data.length s.data

/-- The non-combined fallback of sheetScraper.ts parseCellEvents for one
line: the same multi-section and single-section patterns as the functions
parser; hasStrikethrough and isRed are the constant false there. -/
def tsLineEvent (line : String) (week : Nat) (day : String) (date : JsDate)
    (timeSlot : TimeSlot) (sel : List String) (professor : String) :
    Option ScheduleEvent :=
  match lineCourse line with
  | some (name, sec, loc, code) =>
    if sel.contains code then
      some { id := code ++ "-" ++ loc ++ "-" ++ date.isoString ++ "-" ++ timeSlot.start,
             courseCode := code, courseName := name, sect := sec, location := loc,
             professor := jsTrim professor, date := date, timeSlot := timeSlot,
             week := week, day := day, status := "active",
             isCancelled := false, isRed := false, hasStrikethrough := false }
    else none
  | none => none

/-- sheetScraper.ts parseCellEvents: per line, the combined-section pattern
is tried first; when it matches and the subscriber selected one of the two
section codes (the first listed section winning), one event is emitted for
that line; otherwise the line falls through to the multi/single patterns. -/
def tsParseCellEvents (cellValue : String) (week : Nat) (day : String) (date : JsDate)
    (timeSlot : TimeSlot) (sel : List String) (professorCell : String) :
    List ScheduleEvent :=
  let lines := jsLines cellValue
  let profLines := jsLines professorCell
  lines.enum.filterMap fun pr =>
    let k := pr.1
    let line := pr.2
    let professor := (profLines.get? k).getD ((profLines.get? 0).getD "")
    match findCombined line with
    | some (name, s1, s2, loc) =>
      let firstCode := name ++ "-" ++ (⟨[s1]⟩ : String)
      let secondCode := name ++ "-" ++ (⟨[s2]⟩ : String)
      let matched : Option (String × Char) :=
        if sel.contains firstCode then some (firstCode, s1)
        else if sel.contains secondCode then some (secondCode, s2)
        else none
      match matched with
      | some (code, sec) =>
        some { id := code ++ "-" ++ loc ++ "-" ++ date.isoString ++ "-" ++ timeSlot.start,
               courseCode := code, courseName := name, sect := (⟨[sec]⟩ : String),
               location := loc, professor := jsTrim professor, date := date,
               timeSlot := timeSlot, week := week, day := day, status := "active",
               isCancelled := false, isRed := false, hasStrikethrough := false }
      | none => tsLineEvent line week day date timeSlot sel professor
    | none => tsLineEvent line week day date timeSlot sel professor

/-! ### Style extractor font classification (functions/index.js lines 68-103)

The inputs are the features the source extracts from one font definition:
whether the XML contains a strike marker, and the rgb attribute value captured
by /color[^>]*rgb=["']([A-Fa-f0-9]{6,8})["']/i when present. -/

/-- Numeric value of a hexadecimal digit (JS parseInt base 16 per digit). -/
def hexDigitVal (c : Char) : Nat :=
  if isDigitC c then digitVal c
  else if 'A' ≤ c && c ≤ 'F' then c.toNat - 55
  else if 'a' ≤ c && c ≤ 'f' then c.toNat - 87
  else 0

/-- JS parseInt(s, 16) on a two-character hex slice. -/
def hex2 (a b : Char) : Nat := 16 * hexDigitVal a + hexDigitVal b

/-- The cancellation classification of one font: colour uppercased; an
8-character ARGB value keeps its trailing 6 characters; a 6-character value
is parsed as RGB and tested against the red band R>200, G<50, B<50; the font
is cancelled only when both the strike marker and the red test hold. -/
def fontIsCancelled (isStrike : Bool) (colorAttr : Option String) : Bool :=
  let isRed :=
    match colorAttr with
    | none => false
    | some cv =>
      let full := cv.data.map asciiUpper
      let rgb := if full.length = 8 then full.drop 2 else full
      match rgb with
      | [r1, r2, g1, g2, b1, b2] =>
        decide (200 < hex2 r1 r2) && decide (hex2 g1 g2 < 50) && decide (hex2 b1 b2 < 50)
      | _ => false
  isStrike && isRed

/-! ### Reconciliation engine (functions/index.js syncUserCalendar)

A remote calendar record is modelled by the fields the engine reads: the
provider id used for update/delete calls, summary, location, description,
the private metadata scheduleEventId/courseCode/appCreated, and the local
components of start.dateTime (for the fixed runtime timezone the accessors
getFullYear/getMonth/getDate/getHours/getMinutes are functions of these). -/

/-- A remote calendar event record. -/
structure CalEvent where
  gid : String
  summary : String
  location : String
  description : String
  scheduleEventId : Option String
  courseCode : Option String
  appCreated : Bool
  startDate : JsDate
  startHour : Nat
  startMin : Nat
  deriving DecidableEq

/-- The hours:minutes key fragment, hours unpadded and minutes padded. -/
def timeKeyStr (h m : Nat) : String := natStr h ++ ":" ++ pad2 m

/-- Derived base key of a remote record: courseCode metadata, local date,
local time (syncUserCalendar lines 705-711); only consulted when the
courseCode metadata is present. -/
def baseKeyR (r : CalEvent) : String :=
  r.courseCode.getD "" ++ "-" ++ dateKeyStr r.startDate ++ "-" ++
    timeKeyStr r.startHour r.startMin

/-- Fallback summary key of a remote record: title, local date, local time. -/
def summaryKeyR (r : CalEvent) : String :=
  r.summary ++ "-" ++ dateKeyStr r.startDate ++ "-" ++
    timeKeyStr r.startHour r.startMin

/-- The 12h → 24h hour conversion shared by parseTimeForKey and
createDateTime. -/
def conv24 (h : Nat) (pm : Bool) : Nat :=
  if pm && h != 12 then h + 12 else if !pm && h = 12 then 0 else h

/-- Match (\d+):(\d+)(AM|PM) at the head of the list; the flag selects the
case-insensitive variant used by createDateTime. -/
def tryTime12At (ci : Bool) (cs : List Char) : Option (Nat × Nat × Bool) :=
  let (d1, r1) := cs.span isDigitC
  if d1.isEmpty then none
  else
    match r1 with
    | ':' :: r2 =>
      let (d2, r3) := r2.span isDigitC
      if d2.isEmpty then none
      else
        match r3 with
        | a :: m :: _ =>
          let a' := if ci then asciiUpper a else a
          let m' := if ci then asciiUpper m else m
          if m' = 'M' && (a' = 'A' || a' = 'P') then
            some (natOfDigits d1, natOfDigits d2, a' = 'P')
          else none
        | _ => none
    | _ => none

/-- First 12h-time match anywhere in a string. -/
def findTime12Aux (ci : Bool) : Nat → List Char → Option (Nat × Nat × Bool)
  | 0, _ => none
  | _, [] => none
  | fuel+1, c :: r =>
    match tryTime12At ci (c :: r) with
    | some v => some v
    | none => findTime12Aux ci fuel r

/-- First 12h-time match in a string. -/
def findTime12 (ci : Bool) (s : String) : Option (Nat × Nat × Bool) :=
  findTime12Aux ci s.data.length s.data

/-- functions/index.js parseTimeForKey: [hours, minutes] in 24h form, with
[0, 0] when nothing matches. -/
def parseTimeForKey (time : String) : Nat × Nat :=
  match findTime12 false time with
  | none => (0, 0)
  | some (h, m, pm) => (conv24 h pm, m)

/-- The start components produced by createDateTime for a calendar resource:
the event date with the converted slot time, or none when the
case-insensitive time pattern fails (the source then falls back to the wall
clock, threaded by the caller). -/
def createDateTimeParts (date : JsDate) (time : String) : Option (JsDate × Nat × Nat) :=
  match findTime12 true time with
  | some (h, m, pm) => some (date, conv24 h pm, m)
  | none => none

/-- Derived base key of a canonical event (syncUserCalendar lines 730-738):
courseCode, event date, parseTimeForKey of the slot start. -/
def baseKeyE (e : ScheduleEvent) : String :=
  let hm := parseTimeForKey e.timeSlot.start
  e.courseCode ++ "-" ++ dateKeyStr e.date ++ "-" ++ timeKeyStr hm.1 hm.2

/-- Fallback summary key of a canonical event: courseName-section plus date
and time (syncUserCalendar line 774). -/
def summaryKeyE (e : ScheduleEvent) : String :=
  let hm := parseTimeForKey e.timeSlot.start
  e.courseName ++ "-" ++ e.sect ++ "-" ++ dateKeyStr e.date ++ "-" ++
    timeKeyStr hm.1 hm.2

/-- Lookup in a JS Map built by one forEach of sets: Map.set overwrites, so
Map.get returns the value of the last set with the key. keyOf gives the key a
record is filed under, none when the record is skipped. -/
def lastWith (keyOf : α → Option String) (l : List α) (k : String) : Option α :=
  l.foldl (fun acc r =>
    match keyOf r with
    | some s => if s = k then some r else acc
    | none => acc) none

/-- Key of a record in existingEventsMap: its scheduleEventId when present. -/
def exactKey (r : CalEvent) : Option String := r.scheduleEventId

/-- Key of a record in existingEventsByBaseKey: present only when both the
scheduleEventId and the courseCode metadata are present (the base-key set is
nested inside the scheduleId branch in the source). -/
def baseKeyOf (r : CalEvent) : Option String :=
  match r.scheduleEventId, r.courseCode with
  | some _, some _ => some (baseKeyR r)
  | _, _ => none

/-- Key of a record in existingEventsBySummaryKey: present when the summary
is truthy (built outside the scheduleId branch). -/
def summaryKeyOf (r : CalEvent) : Option String :=
  if r.summary = "" then none else some (summaryKeyR r)

/-- existingEventsMap.get. -/
def exactLookup (st : List CalEvent) (k : String) : Option CalEvent :=
  lastWith exactKey st k

/-- existingEventsByBaseKey.get. -/
def baseLookup (st : List CalEvent) (k : String) : Option CalEvent :=
  lastWith baseKeyOf st k

/-- existingEventsBySummaryKey.get. -/
def summaryLookup (st : List CalEvent) (k : String) : Option CalEvent :=
  lastWith summaryKeyOf st k

/-- The canonical events reconciled for one subscriber: selected courses,
cancelled events excluded (syncUserCalendar lines 603-607). -/
def userEventsOf (sel : List String) (allEvents : List ScheduleEvent) :
    List ScheduleEvent :=
  allEvents.filter fun e => sel.contains e.courseCode && !e.isCancelled

/-- The action the matching tiers choose for one canonical event. -/
inductive SyncAction where
  | noop
  | update (target : CalEvent)
  | create
  deriving DecidableEq

/-- The matching tiers of syncUserCalendar lines 750-786: exact match by
scheduleEventId (update only when location or professor-description
changed), then base-key match, then summary fallback, else create. -/
def classify (existing : List CalEvent) (e : ScheduleEvent) : SyncAction :=
  match exactLookup existing e.id with
  | some ex =>
    if ex.location != e.location || !strContains ex.description e.professor then
      SyncAction.update ex
    else SyncAction.noop
  | none =>
    match baseLookup existing (baseKeyE e) with
    | some bm => SyncAction.update bm
    | none =>
      match summaryLookup existing (summaryKeyE e) with
      | some sm => SyncAction.update sm
      | none => SyncAction.create

/-- Membership of an id in newEventsMap. -/
def ueHasId (ue : List ScheduleEvent) (s : String) : Bool := ue.any fun e => e.id = s

/-- Membership of a key in newBaseKeys. -/
def newBaseKeysHas (ue : List ScheduleEvent) (b : String) : Bool :=
  ue.any fun e => baseKeyE e = b

/-- The delete filter of syncUserCalendar lines 890-927: keep on an exact id
match; keep on a base-key match (guarded only by the courseCode metadata
here, unlike the base map); otherwise delete, whether because the course is
no longer selected, the scheduleEventId vanished from the schedule, or the
record is treated as an orphan. -/
def shouldDelete (sel : List String) (ue : List ScheduleEvent) (r : CalEvent) : Bool :=
  if (match r.scheduleEventId with
      | some s => ueHasId ue s
      | none => false) then false
  else if (match r.courseCode with
      | some _ => newBaseKeysHas ue (baseKeyR r)
      | none => false) then false
  else if (match r.courseCode with
      | some c => !sel.contains c
      | none => false) then true
  else if r.scheduleEventId.isSome then true
  else true

/-- The create, update and delete sets computed by one reconciliation run. -/
structure SyncPlan where
  toCreate : List ScheduleEvent
  toUpdate : List (CalEvent × ScheduleEvent)
  toDelete : List CalEvent
  deriving DecidableEq

/-- One reconciliation run of syncUserCalendar: filter the canonical events
for the subscriber, classify each against the maps built from the remote
records, and filter the remote records for deletion. -/
def computePlan (sel : List String) (allEvents : List ScheduleEvent)
    (existing : List CalEvent) : SyncPlan :=
  let ue := userEventsOf sel allEvents
  { toCreate := ue.filter fun e =>
      match classify existing e with
      | SyncAction.create => true
      | _ => false
    toUpdate := ue.filterMap fun e =>
      match classify existing e with
      | SyncAction.update ex => some (ex, e)
      | _ => none
    toDelete := existing.filter fun r => shouldDelete sel ue r }

/-- The counts returned by a run in which every operation succeeds. -/
def planCounts (p : SyncPlan) : Nat × Nat × Nat :=
  (p.toCreate.length, p.toUpdate.length, p.toDelete.length)

/-- The description written into a created or updated calendar resource. -/
def descriptionOf (e : ScheduleEvent) : String :=
  "Professor: " ++ e.professor ++ "\nLocation: " ++ e.location ++ "\nWeek: " ++
    natStr e.week

/-- The calendar resource body written by an insert or update for event e:
summary courseName-section, the event location, the description above, the
three private metadata properties, and start components from createDateTime
(falling back to the wall clock now on a malformed slot time). -/
def recFromEvent (now : JsDate × Nat × Nat) (e : ScheduleEvent) (gid : String) :
    CalEvent :=
  let parts :=
    match createDateTimeParts e.date e.timeSlot.start with
    | some p => p
    | none => now
  { gid := gid, summary := e.courseName ++ "-" ++ e.sect, location := e.location,
    description := descriptionOf e, scheduleEventId := some e.id,
    courseCode := some e.courseCode, appCreated := true,
    startDate := parts.1, startHour := parts.2.1, startMin := parts.2.2 }

/-- Application of a computed plan to the remote store: updates rewrite the
record with the target's provider id (the resource replaces the listed
fields), deletes then remove by provider id (a record updated earlier in the
same run can still be deleted, as in the source where the delete set was
computed from the pre-run snapshot), and creates append fresh records. -/
def applyPlan (existing : List CalEvent) (p : SyncPlan) (fresh : Nat → String)
    (now : JsDate × Nat × Nat) : List CalEvent :=
  let afterU := p.toUpdate.foldl
    (fun st pr => st.map fun r => if r.gid = pr.1.gid then recFromEvent now pr.2 r.gid else r)
    existing
  let afterD := afterU.filter fun r => !(p.toDelete.any fun dl => dl.gid = r.gid)
  afterD ++ p.toCreate.enum.map fun pr => recFromEvent now pr.2 (fresh pr.1)

/-- The per-record effect of the update pass when the update targets carry
pairwise distinct provider ids: the record rewritten by its (unique)
targeting pair, or unchanged. Used to characterise the foldl of
applyPlan. -/
def updImage (now : JsDate × Nat × Nat) (ups : List (CalEvent × ScheduleEvent))
    (r : CalEvent) : CalEvent :=
  match ups.find? (fun pr => pr.1.gid == r.gid) with
  | some pr => recFromEvent now pr.2 r.gid
  | none => r

/-! ## Theorems -/

theorem parseTimeSlotsAux_take :
    ∀ (fuel : Nat) (grid : List (List String)),
      parseTimeSlotsAux fuel grid = parseTimeSlotsAux fuel (grid.take fuel) := by
  intro fuel
  induction fuel with
  | zero => intro grid; cases grid <;> rfl
  | succ n ih =>
    intro grid
    cases grid with
    | nil => rfl
    | cons row rest =>
      simp only [parseTimeSlotsAux, List.take_succ_cons]
      split
      · rfl
      · exact ih rest

theorem parseTimeSlotsAux_first :
    ∀ (i fuel : Nat) (grid : List (List String)) (row : List String),
      i < fuel → grid.get? i = some row → rowQualifies row = true →
      (∀ j rowj, j < i → grid.get? j = some rowj → rowQualifies rowj = false) →
      parseTimeSlotsAux fuel grid = rowTempSlots row := by
  intro i
  induction i with
  | zero =>
    intro fuel grid row hf hg hq _
    cases grid with
    | nil => simp at hg
    | cons r0 rest =>
      cases fuel with
      | zero => omega
      | succ n =>
        have hr : r0 = row := by simpa using hg
        subst hr
        simp only [rowQualifies, decide_eq_true_eq] at hq
        simp only [parseTimeSlotsAux]
        rw [if_pos hq]
  | succ i ih =>
    intro fuel grid row hf hg hq hprior
    cases grid with
    | nil => simp at hg
    | cons r0 rest =>
      cases fuel with
      | zero => omega
      | succ n =>
        have h0 : rowQualifies r0 = false := hprior 0 r0 (Nat.succ_pos i) (by simp)
        simp only [rowQualifies, decide_eq_false_iff_not] at h0
        simp only [parseTimeSlotsAux]
        rw [if_neg h0]
        exact ih n rest row (by omega) (by simpa using hg) hq
          (fun j rowj hj hgj => hprior (j + 1) rowj (by omega) (by simpa using hgj))

theorem parseTimeSlotsAux_none :
    ∀ (fuel : Nat) (grid : List (List String)),
      (∀ i row, i < fuel → grid.get? i = some row → rowQualifies row = false) →
      parseTimeSlotsAux fuel grid = [] := by
  intro fuel
  induction fuel with
  | zero => intro grid _; cases grid <;> rfl
  | succ n ih =>
    intro grid h
    cases grid with
    | nil => rfl
    | cons r0 rest =>
      have h0 : rowQualifies r0 = false := h 0 r0 (Nat.succ_pos n) (by simp)
      simp only [rowQualifies, decide_eq_false_iff_not] at h0
      simp only [parseTimeSlotsAux]
      rw [if_neg h0]
      exact ih rest (fun i row hi hgi => h (i + 1) row (by omega) (by simpa using hgi))

/-- C6: parseTimeSlots scans at most the first 40 rows; each row collects,
for every cell from column index 2 onward, the last time-range match
(rowTempSlots); the first row yielding at least 5 slots wins and exactly its
slots are returned in column order, every other row being ignored; when no
row yields at least 5 slots the empty list is returned rather than an
error. -/
theorem claim_C6 (grid : List (List String)) :
    parseTimeSlots grid = parseTimeSlots (grid.take 40)
    ∧ (∀ i row, i < 40 → grid.get? i = some row → rowQualifies row = true →
        (∀ j rowj, j < i → grid.get? j = some rowj → rowQualifies rowj = false) →
        parseTimeSlots grid = rowTempSlots row)
    ∧ ((∀ i row, i < 40 → grid.get? i = some row → rowQualifies row = false) →
        parseTimeSlots grid = []) := by
  refine ⟨?_, ?_, ?_⟩
  · simpa [parseTimeSlots] using parseTimeSlotsAux_take 40 grid
  · intro i row h40 hg hq hp
    exact parseTimeSlotsAux_first i 40 grid row h40 hg hq hp
  · intro h
    exact parseTimeSlotsAux_none 40 grid h

theorem claim_C6_witness :
    parseTimeSlots [["", "", "9:00AM - 10:00AM", "10:00AM - 11:00AM",
        "11:00AM - 12:00PM", "1:00PM - 2:00PM", "2:00PM - 3:00PM"]] =
      rowTempSlots ["", "", "9:00AM - 10:00AM", "10:00AM - 11:00AM",
        "11:00AM - 12:00PM", "1:00PM - 2:00PM", "2:00PM - 3:00PM"] :=
  (claim_C6 _).2.1 0 _ (by omega) rfl (by decide)
    (fun j rowj hj _ => absurd hj (Nat.not_lt_zero j))

theorem fmGetAllSome {α β : Type} (f : α → Option β) :
    ∀ (l : List α) (k : Nat),
      (∀ j a, j ≤ k → l.get? j = some a → (f a).isSome = true) →
      ∀ a, l.get? k = some a → (l.filterMap f).get? k = f a := by
  intro l
  induction l with
  | nil => intro k _ a ha; simp at ha
  | cons x t ih =>
    intro k hall a ha
    have hx : (f x).isSome = true := hall 0 x (Nat.zero_le k) (by simp)
    obtain ⟨b, hb⟩ := Option.isSome_iff_exists.mp hx
    cases k with
    | zero =>
      have hxa : x = a := by simpa using ha
      subst hxa
      simp [List.filterMap_cons, hb]
    | succ k =>
      have ht := ih k
        (fun j a2 hj hgj => hall (j + 1) a2 (by omega) (by simpa using hgj))
        a (by simpa using ha)
      simpa [List.filterMap_cons, hb] using ht

theorem fmGetGe {α β : Type} (f : α → Option β) :
    ∀ (l : List α) (k : Nat) (b : β), (l.filterMap f).get? k = some b →
      ∃ j a, k ≤ j ∧ l.get? j = some a ∧ f a = some b := by
  intro l
  induction l with
  | nil => intro k b h; simp at h
  | cons x t ih =>
    intro k b h
    cases hx : f x with
    | some b0 =>
      rw [List.filterMap_cons, hx] at h
      cases k with
      | zero =>
        have hb : b0 = b := by simpa using h
        exact ⟨0, x, Nat.le_refl 0, by simp, by rw [hx, hb]⟩
      | succ k =>
        obtain ⟨j, a, hk, hg, hf⟩ := ih k b (by simpa using h)
        exact ⟨j + 1, a, by omega, by simpa using hg, hf⟩
    | none =>
      rw [List.filterMap_cons, hx] at h
      obtain ⟨j, a, hk, hg, hf⟩ := ih k b h
      exact ⟨j + 1, a, by omega, by simpa using hg, hf⟩

theorem fmGetSkip {α β : Type} (f : α → Option β) :
    ∀ (l : List α) (j k : Nat) (a : α), j ≤ k → l.get? j = some a → f a = none →
      ∀ b, (l.filterMap f).get? k = some b →
        ∃ j2 a2, k < j2 ∧ l.get? j2 = some a2 ∧ f a2 = some b := by
  intro l
  induction l with
  | nil => intro j k a _ hg; simp at hg
  | cons x t ih =>
    intro j k a hjk hg hfa b hb
    cases j with
    | zero =>
      have hxa : x = a := by simpa using hg
      subst hxa
      rw [List.filterMap_cons, hfa] at hb
      obtain ⟨j2, a2, hk2, hg2, hf2⟩ := fmGetGe f t k b hb
      exact ⟨j2 + 1, a2, by omega, by simpa using hg2, hf2⟩
    | succ j =>
      cases k with
      | zero => omega
      | succ k =>
        cases hx : f x with
        | some b0 =>
          rw [List.filterMap_cons, hx] at hb
          obtain ⟨j2, a2, hk2, hg2, hf2⟩ :=
            ih j k a (by omega) (by simpa using hg) hfa b (by simpa using hb)
          exact ⟨j2 + 1, a2, by omega, by simpa using hg2, hf2⟩
        | none =>
          rw [List.filterMap_cons, hx] at hb
          obtain ⟨j2, a2, hk2, hg2, hf2⟩ := fmGetGe f t (k + 1) b hb
          exact ⟨j2 + 1, a2, by omega, by simpa using hg2, hf2⟩

theorem fmGetAtCount {α β : Type} (f : α → Option β) :
    ∀ (l : List α) (k : Nat) (a : α), l.get? k = some a → ∀ b, f a = some b →
      (l.filterMap f).get? ((l.take k).countP (fun x => (f x).isSome)) = some b := by
  intro l
  induction l with
  | nil => intro k a hg; simp at hg
  | cons x t ih =>
    intro k a hg b hfb
    cases k with
    | zero =>
      have hxa : x = a := by simpa using hg
      subst hxa
      simp [List.filterMap_cons, hfb]
    | succ k =>
      have hg' : t.get? k = some a := by simpa using hg
      have ht := ih k a hg' b hfb
      cases hx : f x with
      | some b0 =>
        simpa [List.take_succ_cons, List.countP_cons, hx, List.filterMap_cons] using ht
      | none =>
        simpa [List.take_succ_cons, List.countP_cons, hx, List.filterMap_cons] using ht

/-- C10 amended: the slot list of a candidate header row is compacted: slot k
is the k-th matching header cell scanning from column index 2, so (since
parseScheduleEvents assigns column j the slot at index j - 2) the assignment
aligns with a column's own header exactly on all-matching prefixes: if every
cell up to relative index k matches, slot k is cell k's own match; if some
earlier cell fails to match, slot k comes from a strictly later column; and
when the recovered slots are pairwise distinct, a miss forces the assigned
slot value to differ from the column's own header time. -/
theorem claim_C10_amended (row : List String) (k : Nat) :
    ((∀ j c, j ≤ k → (row.drop 2).get? j = some c → (cellSlot c).isSome = true) →
      ∀ c, (row.drop 2).get? k = some c → (rowTempSlots row).get? k = cellSlot c)
    ∧ ((∃ j c, j ≤ k ∧ (row.drop 2).get? j = some c ∧ cellSlot c = none) →
      ∀ s, (rowTempSlots row).get? k = some s →
        ∃ j2 c2, k < j2 ∧ (row.drop 2).get? j2 = some c2 ∧ cellSlot c2 = some s)
    ∧ ((rowTempSlots row).Nodup →
      (∃ j c, j < k ∧ (row.drop 2).get? j = some c ∧ cellSlot c = none) →
      ∀ c s, (row.drop 2).get? k = some c → cellSlot c = some s →
        (rowTempSlots row).get? k ≠ some s) := by
  refine ⟨?_, ?_, ?_⟩
  · intro hall c hc
    exact fmGetAllSome cellSlot (row.drop 2) k hall c hc
  · rintro ⟨j, c, hjk, hg, hn⟩ s hs
    exact fmGetSkip cellSlot (row.drop 2) j k c hjk hg hn s hs
  · rintro hnd ⟨j, c0, hjk, hg0, hn0⟩ c s hgc hcs hcontra
    have hpos : (rowTempSlots row).get?
        (((row.drop 2).take k).countP (fun x => (cellSlot x).isSome)) = some s :=
      fmGetAtCount cellSlot (row.drop 2) k c hgc s hcs
    have hklen : k < (row.drop 2).length := by
      by_contra hnk
      rw [List.get?_eq_none.mpr (by omega)] at hgc
      exact Option.noConfusion hgc
    have hlen : ((row.drop 2).take k).length = k := by
      simp only [List.length_take, List.length_drop] at hklen ⊢
      omega
    have hle : ((row.drop 2).take k).countP (fun x => (cellSlot x).isSome) ≤ k := by
      calc ((row.drop 2).take k).countP (fun x => (cellSlot x).isSome)
          ≤ ((row.drop 2).take k).length := List.countP_le_length _
        _ = k := hlen
    have hne : ((row.drop 2).take k).countP (fun x => (cellSlot x).isSome) ≠ k := by
      intro he
      have hallp := List.countP_eq_length.mp (by rw [he, hlen])
      have hmem : c0 ∈ (row.drop 2).take k := by
        have : ((row.drop 2).take k).get? j = some c0 := by
          rwa [List.get?_take hjk]
        exact List.get?_mem this
      have := hallp c0 hmem
      simp [hn0] at this
    have hposlt : ((row.drop 2).take k).countP (fun x => (cellSlot x).isSome) < k := by
      omega
    have hposlen : ((row.drop 2).take k).countP (fun x => (cellSlot x).isSome) <
        (rowTempSlots row).length := by
      have := List.get?_eq_some.mp hpos
      exact this.1
    have heq : ((row.drop 2).take k).countP (fun x => (cellSlot x).isSome) = k :=
      List.get?_inj hposlen hnd (by rw [hpos, hcontra])
    omega

theorem claim_C10_counterexample :
    cellSlot "zzz" = none
    ∧ ["", "", "zzz", "9:00AM - 10:00AM", "1:00PM - 2:00PM", "1:00PM - 2:00PM",
        "3:00PM - 4:00PM", "4:00PM - 5:00PM", "5:00PM - 6:00PM"].get? 4 =
        some "1:00PM - 2:00PM"
    ∧ rowQualifies ["", "", "zzz", "9:00AM - 10:00AM", "1:00PM - 2:00PM",
        "1:00PM - 2:00PM", "3:00PM - 4:00PM", "4:00PM - 5:00PM",
        "5:00PM - 6:00PM"] = true
    ∧ (rowTempSlots ["", "", "zzz", "9:00AM - 10:00AM", "1:00PM - 2:00PM",
        "1:00PM - 2:00PM", "3:00PM - 4:00PM", "4:00PM - 5:00PM",
        "5:00PM - 6:00PM"]).get? (4 - 2) = cellSlot "1:00PM - 2:00PM"
    ∧ (cellSlot "1:00PM - 2:00PM").isSome = true := by
  decide

theorem claim_C10_witness :
    (rowTempSlots ["", "", "9:00AM - 10:00AM", "10:00AM - 11:00AM",
        "11:00AM - 12:00PM", "1:00PM - 2:00PM", "2:00PM - 3:00PM"]).get? 1 =
      cellSlot "10:00AM - 11:00AM" :=
  (claim_C10_amended _ 1).1
    (by
      intro j c hj hg
      have hj01 : j = 0 ∨ j = 1 := by omega
      rcases hj01 with rfl | rfl
      · simp at hg
        subst hg
        decide
      · simp at hg
        subst hg
        decide)
    _ (by simp)

theorem findDateAux_head (fuel : Nat) (cs : List Char) (v : Nat × Nat × Nat)
    (hf : 0 < fuel) (hcs : cs ≠ []) (h : tryDateAt cs = some v) :
    findDateAux fuel cs = some v := by
  cases fuel with
  | zero => omega
  | succ n =>
    cases cs with
    | nil => exact absurd rfl hcs
    | cons c r => simp [findDateAux, h]

/-- C8: parseDate parses day-first. Concretely parseDate("14/2/2026") is
14 February 2026 (month index 1 is the 1-indexed month 2), and for every
string of the shape D/M/YYYY (one or two digit day and month, four digit
year) the first number becomes the day and the second the month, whatever
wall-clock date the fallback would supply. -/
theorem claim_C8 :
    (∀ now : JsDate, parseDate now "14/2/2026" = ⟨2026, 1, 14⟩)
    ∧ (∀ (now : JsDate) (ds ms ys : List Char),
        ds ≠ [] → ds.length ≤ 2 → (∀ c ∈ ds, isDigitC c = true) →
        ms ≠ [] → ms.length ≤ 2 → (∀ c ∈ ms, isDigitC c = true) →
        ys.length = 4 → (∀ c ∈ ys, isDigitC c = true) →
        parseDate now ⟨ds ++ '/' :: (ms ++ '/' :: ys)⟩ =
          ⟨natOfDigits ys, natOfDigits ms - 1, natOfDigits ds⟩) := by
  constructor
  · intro now
    rfl
  · intro now ds ms ys dne dlen ddig mne mlen mdig ylen ydig
    obtain ⟨y1, y2, y3, y4, hys⟩ :
        ∃ y1 y2 y3 y4, ys = [y1, y2, y3, y4] := by
      match ys, ylen with
      | [y1, y2, y3, y4], _ => exact ⟨y1, y2, y3, y4, rfl⟩
    subst hys
    have hy1 := ydig y1 (by simp)
    have hy2 := ydig y2 (by simp)
    have hy3 := ydig y3 (by simp)
    have hy4 := ydig y4 (by simp)
    have hslash : isDigitC '/' = false := by decide
    have htry : tryDateAt (ds ++ '/' :: (ms ++ '/' :: [y1, y2, y3, y4])) =
        some (natOfDigits ds, natOfDigits ms, natOfDigits [y1, y2, y3, y4]) := by
      match ds, dne, dlen with
      | [a], _, _ =>
        have ha := ddig a (by simp)
        match ms, mne, mlen with
        | [b], _, _ =>
          have hb := mdig b (by simp)
          simp [tryDateAt, grab12, grab4, firstSome, ha, hb, hslash, hy1, hy2, hy3, hy4]
        | [b1, b2], _, _ =>
          have hb1 := mdig b1 (by simp)
          have hb2 := mdig b2 (by simp)
          simp [tryDateAt, grab12, grab4, firstSome, ha, hb1, hb2, hslash,
            hy1, hy2, hy3, hy4]
      | [a1, a2], _, _ =>
        have ha1 := ddig a1 (by simp)
        have ha2 := ddig a2 (by simp)
        match ms, mne, mlen with
        | [b], _, _ =>
          have hb := mdig b (by simp)
          simp [tryDateAt, grab12, grab4, firstSome, ha1, ha2, hb, hslash,
            hy1, hy2, hy3, hy4]
        | [b1, b2], _, _ =>
          have hb1 := mdig b1 (by simp)
          have hb2 := mdig b2 (by simp)
          simp [tryDateAt, grab12, grab4, firstSome, ha1, ha2, hb1, hb2, hslash,
            hy1, hy2, hy3, hy4]
    have hne : ds ++ '/' :: (ms ++ '/' :: [y1, y2, y3, y4]) ≠ [] := by
      simp
    have hfind : findDate ⟨ds ++ '/' :: (ms ++ '/' :: [y1, y2, y3, y4])⟩ =
        some (natOfDigits ds, natOfDigits ms, natOfDigits [y1, y2, y3, y4]) := by
      unfold findDate
      exact findDateAux_head _ _ _ (by simp) hne htry
    simp [parseDate, hfind]

theorem claim_C8_witness :
    parseDate ⟨2000, 0, 1⟩ ⟨['3', '1'] ++ '/' :: (['1', '2'] ++ '/' :: ['2', '0', '2', '5'])⟩ =
      ⟨natOfDigits ['2', '0', '2', '5'], natOfDigits ['1', '2'] - 1, natOfDigits ['3', '1']⟩ :=
  claim_C8.2 ⟨2000, 0, 1⟩ ['3', '1'] ['1', '2'] ['2', '0', '2', '5']
    (by decide) (by decide) (by decide) (by decide) (by decide) (by decide)
    (by decide) (by decide)

/-- C9: a font is classified cancelled exactly when it carries the
strikethrough marker and its colour lies in the red band R>200, G<50, B<50,
a 6-hex value read as RGB and an 8-hex ARGB value read through its trailing
6 hex digits; a font satisfying only one of the two conditions is never
cancelled. -/
theorem claim_C9 (st : Bool) (c : Option String) :
    (fontIsCancelled st c = true → st = true)
    ∧ fontIsCancelled false c = false
    ∧ fontIsCancelled st none = false
    ∧ (∀ s : String, s.data.length = 8 →
        fontIsCancelled st (some s) = fontIsCancelled st (some ⟨s.data.drop 2⟩))
    ∧ (∀ r1 r2 g1 g2 b1 b2 : Char,
        fontIsCancelled st (some ⟨[r1, r2, g1, g2, b1, b2]⟩) =
          (st && (decide (200 < hex2 (asciiUpper r1) (asciiUpper r2)) &&
            decide (hex2 (asciiUpper g1) (asciiUpper g2) < 50) &&
            decide (hex2 (asciiUpper b1) (asciiUpper b2) < 50)))) := by
  refine ⟨?_, ?_, ?_, ?_, ?_⟩
  · intro h
    simp only [fontIsCancelled, Bool.and_eq_true] at h
    exact h.1
  · simp [fontIsCancelled]
  · simp [fontIsCancelled]
  · intro s h8
    have hmaplen : (s.data.map asciiUpper).length = 8 := by simp [h8]
    have hdroplen : ((s.data.drop 2).map asciiUpper).length = 6 := by simp [h8]
    simp only [fontIsCancelled]
    rw [if_pos hmaplen, if_neg (by rw [hdroplen]; omega), List.map_drop]
  · intro r1 r2 g1 g2 b1 b2
    simp [fontIsCancelled]

theorem claim_C9_witness :
    fontIsCancelled true (some "FFFF0000") = fontIsCancelled true (some "FF0000")
    ∧ fontIsCancelled true (some "FF0000") = true := by
  constructor
  · exact (claim_C9 true (some "FFFF0000")).2.2.2.1 "FFFF0000" (by decide)
  · decide

theorem parseDate_indep (now₁ now₂ : JsDate) (s : String)
    (h : isValidDate s = true) : parseDate now₁ s = parseDate now₂ s := by
  simp only [isValidDate, Option.isSome_iff_exists] at h
  obtain ⟨v, hv⟩ := h
  simp [parseDate, hv]

theorem stepDate_indep (now₁ now₂ d : JsDate) (cell0 : String) :
    stepDate now₁ d cell0 = stepDate now₂ d cell0 := by
  by_cases hv : isValidDate cell0 = true
  · simp only [stepDate, if_pos hv]
    exact parseDate_indep now₁ now₂ cell0 hv
  · simp only [stepDate]
    rw [if_neg hv, if_neg hv]

theorem stepDate_not (now d : JsDate) (cell0 : String)
    (h : isValidDate cell0 = false) : stepDate now d cell0 = d := by
  simp [stepDate, h]

theorem isValidDay_empty : isValidDay "" = false := by decide

theorem dayGuard_eq (day : String) :
    (decide (day ≠ "") && isValidDay day) = isValidDay day := by
  by_cases h : day = ""
  · subst h
    rw [isValidDay_empty]
    simp
  · simp [h]

theorem parseRows_now_indep (slots : List TimeSlot) (styles : Nat → Nat → Bool)
    (sel : List String) (now₁ now₂ : JsDate) :
    ∀ (rows : List (List String)) (i w : Nat) (d : JsDate),
      parseRows slots styles sel now₁ i rows w d =
        parseRows slots styles sel now₂ i rows w d := by
  intro rows
  induction rows with
  | nil => intro i w d; rfl
  | cons row rest ih =>
    intro i w d
    simp only [parseRows]
    rw [stepDate_indep now₁ now₂ d ((row.get? 0).getD "")]
    exact congrArg _ (ih (i + 1) _ _)

theorem parseRows_date_indep (slots : List TimeSlot) (styles : Nat → Nat → Bool)
    (sel : List String) (now : JsDate) :
    ∀ (rows : List (List String)),
      (∀ k row, rows.get? k = some row → isDayRow row = true →
        ∃ j rowj, j ≤ k ∧ rows.get? j = some rowj ∧ isDateRow rowj = true) →
      ∀ (i w : Nat) (d₁ d₂ : JsDate),
        parseRows slots styles sel now i rows w d₁ =
          parseRows slots styles sel now i rows w d₂ := by
  intro rows
  induction rows with
  | nil => intro _ i w d₁ d₂; rfl
  | cons row rest ih =>
    intro H i w d₁ d₂
    by_cases hdate : isDateRow row = true
    · simp only [isDateRow] at hdate
      simp only [parseRows, stepDate, if_pos hdate]
    · have hday : isDayRow row = false := by
        by_contra hne
        have hd : isDayRow row = true := by
          cases h : isDayRow row
          · exact absurd h hne
          · rfl
        obtain ⟨j, rowj, hj, hgj, hdj⟩ := H 0 row (by simp) hd
        have hj0 : j = 0 := by omega
        subst hj0
        have heq : row = rowj := by simpa using hgj
        subst heq
        exact hdate hdj
      have hvd : isValidDate ((row.get? 0).getD "") = false := by
        simpa [isDateRow] using hdate
      have hguard : (decide (((row.get? 1).getD "") ≠ "") &&
          isValidDay ((row.get? 1).getD "")) = false := by
        rw [dayGuard_eq]
        simpa [isDayRow] using hday
      have Hrest : ∀ k row2, rest.get? k = some row2 → isDayRow row2 = true →
          ∃ j rowj, j ≤ k ∧ rest.get? j = some rowj ∧ isDateRow rowj = true := by
        intro k row2 hg2 hd2
        obtain ⟨j, rowj, hj, hgj, hdj⟩ := H (k + 1) row2 (by simpa using hg2) hd2
        cases j with
        | zero =>
          have heq : row = rowj := by simpa using hgj
          subst heq
          exact absurd hdj hdate
        | succ j' =>
          exact ⟨j', rowj, by omega, by simpa using hgj, hdj⟩
      simp only [parseRows, hguard, stepDate_not now _ _ hvd]
      simp only [Bool.false_eq_true, if_false, List.nil_append]
      exact ih Hrest (i + 1) _ d₁ d₂

/-- C5 amended: the parse output is a deterministic function of the grid
contents provided every day row is preceded by a date row; on such grids
re-parsing at a different wall-clock time yields the identical event list
(hence identical ScheduleEvent.id sets), and the course catalog, which never
reads the clock, is returned sorted by course code. On a grid containing a
day block with no preceding date row the event ids depend on the parse time
(see the counterexample). -/
theorem claim_C5_amended (grid : List (List String)) (sel : List String)
    (styles : Nat → Nat → Bool) (now₁ now₂ : JsDate)
    (hgrid : dayRowsDated grid) :
    parseScheduleEvents grid sel styles now₁ = parseScheduleEvents grid sel styles now₂
    ∧ List.Pairwise (fun a b : Course => a.code ≤ b.code) (extractCourses grid) := by
  constructor
  · simp only [parseScheduleEvents]
    by_cases hz : (parseTimeSlots grid).length = 0
    · rw [if_pos hz, if_pos hz]
    · rw [if_neg hz, if_neg hz]
      calc parseRows (parseTimeSlots grid) styles sel now₁ 0 grid 1 now₁
          = parseRows (parseTimeSlots grid) styles sel now₁ 0 grid 1 now₂ :=
            parseRows_date_indep _ styles sel now₁ grid hgrid 0 1 now₁ now₂
        _ = parseRows (parseTimeSlots grid) styles sel now₂ 0 grid 1 now₂ :=
            parseRows_now_indep _ styles sel now₁ now₂ grid 0 1 now₂
  · have hs := @List.sorted_mergeSort Course (fun a b : Course => decide (a.code ≤ b.code))
      (fun a b c h1 h2 => by
        simp only [decide_eq_true_eq] at h1 h2 ⊢
        exact le_trans h1 h2)
      (fun a b => by
        simp only [Bool.or_eq_true, decide_eq_true_eq]
        exact le_total a.code b.code)
      (dedupByCode (allCands grid) [])
    simpa [extractCourses] using hs

theorem claim_C5_counterexample :
    (parseScheduleEvents
        [["", "", "9:00AM - 10:00AM", "10:00AM - 11:00AM", "11:00AM - 12:00PM",
          "1:00PM - 2:00PM", "2:00PM - 3:00PM"],
         ["", "Mon", "CS101-A (R1)"]]
        ["CS101-A"] (fun _ _ => false) ⟨2026, 0, 1⟩).map (fun e => e.id) ≠
    (parseScheduleEvents
        [["", "", "9:00AM - 10:00AM", "10:00AM - 11:00AM", "11:00AM - 12:00PM",
          "1:00PM - 2:00PM", "2:00PM - 3:00PM"],
         ["", "Mon", "CS101-A (R1)"]]
        ["CS101-A"] (fun _ _ => false) ⟨2026, 0, 2⟩).map (fun e => e.id) := by
  decide

theorem claim_C5_witness :
    parseScheduleEvents
        [["", "", "9:00AM - 10:00AM", "10:00AM - 11:00AM", "11:00AM - 12:00PM",
          "1:00PM - 2:00PM", "2:00PM - 3:00PM"],
         ["14/2/2026"],
         ["", "Mon", "CS101-A (R1)"]]
        ["CS101-A"] (fun _ _ => false) ⟨2026, 0, 1⟩ =
      parseScheduleEvents
        [["", "", "9:00AM - 10:00AM", "10:00AM - 11:00AM", "11:00AM - 12:00PM",
          "1:00PM - 2:00PM", "2:00PM - 3:00PM"],
         ["14/2/2026"],
         ["", "Mon", "CS101-A (R1)"]]
        ["CS101-A"] (fun _ _ => false) ⟨2026, 0, 2⟩ := by
  refine (claim_C5_amended _ ["CS101-A"] (fun _ _ => false) ⟨2026, 0, 1⟩ ⟨2026, 0, 2⟩ ?_).1
  intro i row hg hday
  match i, hg with
  | 0, hg =>
    have : row = ["", "", "9:00AM - 10:00AM", "10:00AM - 11:00AM", "11:00AM - 12:00PM",
        "1:00PM - 2:00PM", "2:00PM - 3:00PM"] := by simpa using hg.symm
    subst this
    exact absurd hday (by decide)
  | 1, hg =>
    have : row = ["14/2/2026"] := by simpa using hg.symm
    subst this
    exact absurd hday (by decide)
  | 2, hg =>
    exact ⟨1, ["14/2/2026"], by omega, rfl, by decide⟩
  | n+3, hg => simp at hg

section LastWithLemmas

variable {α : Type} (keyOf : α → Option String)

theorem lastWith_shift (k : String) :
    ∀ (l : List α) (acc : Option α),
      l.foldl (fun acc r =>
        match keyOf r with
        | some s => if s = k then some r else acc
        | none => acc) acc =
      match lastWith keyOf l k with
      | some r => some r
      | none => acc := by
  intro l
  induction l with
  | nil => intro acc; rfl
  | cons x t ih =>
    intro acc
    show t.foldl _ (match keyOf x with
      | some s => if s = k then some x else acc
      | none => acc) = _
    have hx : lastWith keyOf (x :: t) k =
        t.foldl (fun acc r =>
          match keyOf r with
          | some s => if s = k then some r else acc
          | none => acc)
          (match keyOf x with
          | some s => if s = k then some x else none
          | none => none) := rfl
    rw [hx, ih, ih]
    cases hlt : lastWith keyOf t k with
    | some r => rfl
    | none =>
      cases hk : keyOf x with
      | some s =>
        by_cases hs : s = k
        · simp [hs]
        · simp [hs]
      | none => rfl

theorem lastWith_cons (k : String) (x : α) (t : List α) :
    lastWith keyOf (x :: t) k =
      match lastWith keyOf t k with
      | some r => some r
      | none =>
        match keyOf x with
        | some s => if s = k then some x else none
        | none => none := by
  show t.foldl _ _ = _
  rw [lastWith_shift keyOf k t]

theorem lastWith_app (k : String) (l1 l2 : List α) :
    lastWith keyOf (l1 ++ l2) k =
      match lastWith keyOf l2 k with
      | some r => some r
      | none => lastWith keyOf l1 k := by
  show (l1 ++ l2).foldl _ none = _
  rw [List.foldl_append, lastWith_shift keyOf k l2]
  rfl

theorem lastWith_none_iff (k : String) :
    ∀ (l : List α), lastWith keyOf l k = none ↔ ∀ r ∈ l, keyOf r ≠ some k := by
  intro l
  induction l with
  | nil => simp [lastWith]
  | cons x t ih =>
    rw [lastWith_cons]
    constructor
    · intro h r hr
      rcases List.mem_cons.mp hr with rfl | hrt
      · cases hlt : lastWith keyOf t k with
        | some r2 => rw [hlt] at h; exact Option.noConfusion h
        | none =>
          rw [hlt] at h
          intro hcon
          rw [hcon] at h
          simp at h
      · cases hlt : lastWith keyOf t k with
        | some r2 => rw [hlt] at h; exact Option.noConfusion h
        | none => exact ih.mp hlt r hrt
    · intro hall
      have hlt : lastWith keyOf t k = none :=
        ih.mpr fun y hy => hall y (List.mem_cons_of_mem x hy)
      rw [hlt]
      cases hk : keyOf x with
      | some s =>
        have hs : s ≠ k := by
          intro hcon
          exact hall x (List.mem_cons_self x t) (by rw [hk, hcon])
        simp [hs]
      | none => rfl

theorem lastWith_decomp (k : String) :
    ∀ (l : List α) (r : α), lastWith keyOf l k = some r →
      keyOf r = some k ∧
        ∃ l1 l2, l = l1 ++ r :: l2 ∧ ∀ y ∈ l2, keyOf y ≠ some k := by
  intro l
  induction l with
  | nil => intro r h; exact absurd h (by simp [lastWith])
  | cons x t ih =>
    intro r h
    rw [lastWith_cons] at h
    cases hlt : lastWith keyOf t k with
    | some r2 =>
      rw [hlt] at h
      have hr : r2 = r := Option.some.inj h
      subst hr
      obtain ⟨hk, l1, l2, heq, hnone⟩ := ih r2 hlt
      exact ⟨hk, x :: l1, l2, by rw [heq]; rfl, hnone⟩
    | none =>
      rw [hlt] at h
      cases hk : keyOf x with
      | some s =>
        rw [hk] at h
        by_cases hs : s = k
        · subst hs
          simp only [if_pos rfl] at h
          have hx : x = r := Option.some.inj h
          subst hx
          refine ⟨hk, [], t, rfl, ?_⟩
          exact (lastWith_none_iff keyOf _ t).mp hlt
        · simp [hs] at h
      | none =>
        rw [hk] at h
        exact Option.noConfusion h

theorem lastWith_mem (k : String) (l : List α) (r : α)
    (h : lastWith keyOf l k = some r) : r ∈ l ∧ keyOf r = some k := by
  obtain ⟨hk, l1, l2, heq, _⟩ := lastWith_decomp keyOf k l r h
  subst heq
  exact ⟨List.mem_append_right l1 (List.mem_cons_self r l2), hk⟩

theorem lastWith_last (k : String) (l1 l2 : List α) (x : α)
    (hx : keyOf x = some k) (h2 : ∀ y ∈ l2, keyOf y ≠ some k) :
    lastWith keyOf (l1 ++ x :: l2) k = some x := by
  rw [lastWith_app, lastWith_cons]
  rw [(lastWith_none_iff keyOf k l2).mpr h2, hx]
  simp

end LastWithLemmas

/-- C7 amended: the combined-section behaviour lives in the frontend parser
(sheetScraper.ts parseCellEvents): a combined-section line yields exactly one
event whose courseCode is whichever of Name-X / Name-Y is in the selection,
the first listed section winning when both are selected, with the shared
location; concretely the cell "SA-A and B (PT-2-4)" with selection ["SA-B"]
yields one event with courseCode "SA-B" and location "PT-2-4". The
cloud-functions copy of parseCellEvents has no combined-section branch and
yields no event for such a cell (see the counterexample). -/
theorem claim_C7_amended :
    ((tsParseCellEvents "SA-A and B (PT-2-4)" 1 "Sat" ⟨2026, 1, 14⟩
        ⟨"12:30PM", "2:00PM"⟩ ["SA-B"] "").map
        (fun e => (e.courseCode, e.location)) = [("SA-B", "PT-2-4")])
    ∧ (∀ (line name : String) (s1 s2 : Char) (loc : String) (sel : List String)
        (week : Nat) (day : String) (date : JsDate) (ts : TimeSlot)
        (profCell : String),
        jsLines line = [line] →
        findCombined line = some (name, s1, s2, loc) →
        sel.contains (name ++ "-" ++ (⟨[s1]⟩ : String)) = true →
        (tsParseCellEvents line week day date ts sel profCell).map
          (fun e => e.courseCode) = [name ++ "-" ++ (⟨[s1]⟩ : String)]) := by
  constructor
  · decide
  · intro line name s1 s2 loc sel week day date ts profCell hlines hfc hsel
    have hmem : (name ++ "-" ++ (⟨[s1]⟩ : String)) ∈ sel := by
      simpa using hsel
    simp [tsParseCellEvents, hlines, hfc, hmem]

theorem claim_C7_counterexample :
    parseCellEvents "SA-A and B (PT-2-4)" 1 "Sat" ⟨2026, 1, 14⟩
      ⟨"12:30PM", "2:00PM"⟩ ["SA-B"] "" false = [] := by
  decide

theorem claim_C7_witness :
    (tsParseCellEvents "SA-A and B (PT-2-4)" 1 "Sat" ⟨2026, 1, 14⟩
        ⟨"12:30PM", "2:00PM"⟩ ["SA-A", "SA-B"] "").map (fun e => e.courseCode) =
      ["SA-A"] :=
  claim_C7_amended.2 "SA-A and B (PT-2-4)" "SA" 'A' 'B' "PT-2-4" ["SA-A", "SA-B"]
    1 "Sat" ⟨2026, 1, 14⟩ ⟨"12:30PM", "2:00PM"⟩ "" (by decide) (by decide) (by decide)

/-- C4: for every run of the reconciliation engine over any canonical event
set and any remote record set, the create set and the update set are
disjoint: a canonical event filed for creation never also appears as the
canonical side of an update pair. -/
theorem claim_C4 (sel : List String) (allEvents : List ScheduleEvent)
    (existing : List CalEvent) (e : ScheduleEvent)
    (hc : e ∈ (computePlan sel allEvents existing).toCreate) :
    ∀ pr ∈ (computePlan sel allEvents existing).toUpdate, pr.2 ≠ e := by
  intro pr hu heq
  have hc' := List.mem_filter.mp hc
  obtain ⟨e', hme', hfe'⟩ := List.mem_filterMap.mp hu
  cases hcl' : classify existing e' with
  | noop => rw [hcl'] at hfe'; exact Option.noConfusion hfe'
  | create => rw [hcl'] at hfe'; exact Option.noConfusion hfe'
  | update ex =>
    rw [hcl'] at hfe'
    have hpr : (ex, e') = pr := Option.some.inj hfe'
    have he' : e' = e := by rw [← heq, ← hpr]
    subst he'
    rw [hcl'] at hc'
    exact Bool.noConfusion hc'.2

theorem claim_C4_witness :
    ((computePlan ["CS101-A"]
        [(⟨"CS101-A-R1-X", "CS101-A", "CS101", "A", "R1", "P", ⟨2026, 1, 14⟩,
          ⟨"9:00AM", "10:30AM"⟩, 1, "Mon", "active", false, false, false⟩ :
          ScheduleEvent)] []).toUpdate.all
      fun pr => pr.2 ≠ (⟨"CS101-A-R1-X", "CS101-A", "CS101", "A", "R1", "P",
        ⟨2026, 1, 14⟩, ⟨"9:00AM", "10:30AM"⟩, 1, "Mon", "active", false, false,
        false⟩ : ScheduleEvent)) = true := by
  rw [List.all_eq_true]
  intro pr hpr
  have h := claim_C4 ["CS101-A"]
    [(⟨"CS101-A-R1-X", "CS101-A", "CS101", "A", "R1", "P", ⟨2026, 1, 14⟩,
      ⟨"9:00AM", "10:30AM"⟩, 1, "Mon", "active", false, false, false⟩ :
      ScheduleEvent)] []
    (⟨"CS101-A-R1-X", "CS101-A", "CS101", "A", "R1", "P", ⟨2026, 1, 14⟩,
      ⟨"9:00AM", "10:30AM"⟩, 1, "Mon", "active", false, false, false⟩ :
      ScheduleEvent) (by decide) pr hpr
  simpa using h

theorem count_filterMap_eq {α β : Type} [BEq α] [LawfulBEq α] [BEq β] [LawfulBEq β]
    (f : α → Option β) (b : β) (a : α) (hfa : f a = some b)
    (huniq : ∀ x, f x = some b → x = a) :
    ∀ l : List α, (l.filterMap f).count b = l.count a := by
  intro l
  induction l with
  | nil => rfl
  | cons x t ih =>
    cases hx : f x with
    | some b0 =>
      simp only [List.filterMap_cons, hx]
      by_cases hb : b0 = b
      · subst hb
        have hxa : x = a := huniq x hx
        subst hxa
        rw [List.count_cons_self, List.count_cons_self, ih]
      · have hxa : x ≠ a := by
          intro hcon
          subst hcon
          rw [hfa] at hx
          exact hb (Option.some.inj hx).symm
        have hb' : b ≠ b0 := fun hcon => hb hcon.symm
        have ha' : a ≠ x := fun hcon => hxa hcon.symm
        rw [List.count_cons_of_ne hb', List.count_cons_of_ne ha', ih]
    | none =>
      simp only [List.filterMap_cons, hx]
      have hxa : x ≠ a := by
        intro hcon
        subst hcon
        rw [hfa] at hx
        exact Option.noConfusion hx
      have ha' : a ≠ x := fun hcon => hxa hcon.symm
      rw [List.count_cons_of_ne ha', ih]

/-- C3 amended: the base-key tier only fires for remote records that carry a
scheduleEventId (the base-key map is built inside the scheduleId branch).
For a canonical event E with no exact id match whose derived base key (C, D,
T) is carried by the base-key map entry r (a record with scheduleEventId and
courseCode metadata) with a different location, the run emits exactly one
update for the pair (r, E), does not create E, and does not delete r; a
record with matching course/date/time but no scheduleEventId is not matched
by this tier (see the counterexample). -/
theorem claim_C3_amended (sel : List String) (allEvents : List ScheduleEvent)
    (existing : List CalEvent) (e : ScheduleEvent) (r : CalEvent)
    (hue : e ∈ userEventsOf sel allEvents)
    (hcount : (userEventsOf sel allEvents).count e = 1)
    (hex : exactLookup existing e.id = none)
    (hbm : baseLookup existing (baseKeyE e) = some r)
    (hloc : r.location ≠ e.location) :
    (computePlan sel allEvents existing).toUpdate.count (r, e) = 1
    ∧ e ∉ (computePlan sel allEvents existing).toCreate
    ∧ r ∉ (computePlan sel allEvents existing).toDelete := by
  have hcl : classify existing e = SyncAction.update r := by
    simp [classify, hex, hbm]
  have hkey := (lastWith_mem baseKeyOf (baseKeyE e) existing r hbm).2
  refine ⟨?_, ?_, ?_⟩
  · have hfa : (fun e' => match classify existing e' with
        | SyncAction.update ex => some (ex, e')
        | _ => none) e = some (r, e) := by
      show (match classify existing e with
        | SyncAction.update ex => some (ex, e)
        | _ => none) = some (r, e)
      rw [hcl]
    have huniq : ∀ x, (fun e' => match classify existing e' with
        | SyncAction.update ex => some (ex, e')
        | _ => none) x = some (r, e) → x = e := by
      intro x hx
      simp only at hx
      cases hclx : classify existing x with
      | noop => rw [hclx] at hx; exact Option.noConfusion hx
      | create => rw [hclx] at hx; exact Option.noConfusion hx
      | update ex =>
        rw [hclx] at hx
        exact congrArg Prod.snd (Option.some.inj hx)
    calc (computePlan sel allEvents existing).toUpdate.count (r, e)
        = (userEventsOf sel allEvents).count e :=
          count_filterMap_eq _ (r, e) e hfa huniq (userEventsOf sel allEvents)
      _ = 1 := hcount
  · intro hmem
    have h := (List.mem_filter.mp hmem).2
    rw [hcl] at h
    exact Bool.noConfusion h
  · intro hmem
    have h := (List.mem_filter.mp hmem).2
    have hbk : newBaseKeysHas (userEventsOf sel allEvents) (baseKeyR r) = true := by
      have hrk : baseKeyR r = baseKeyE e := by
        simp only [baseKeyOf] at hkey
        cases hsid : r.scheduleEventId with
        | none => rw [hsid] at hkey; exact Option.noConfusion hkey
        | some s =>
          cases hcc : r.courseCode with
          | none => rw [hsid, hcc] at hkey; exact Option.noConfusion hkey
          | some c =>
            rw [hsid, hcc] at hkey
            exact Option.some.inj hkey
      rw [hrk]
      exact List.any_eq_true.mpr ⟨e, hue, by simp⟩
    have hcc : r.courseCode.isSome = true := by
      simp only [baseKeyOf] at hkey
      cases hsid : r.scheduleEventId with
      | none => rw [hsid] at hkey; exact Option.noConfusion hkey
      | some s =>
        cases hcc2 : r.courseCode with
        | none => rw [hsid, hcc2] at hkey; exact Option.noConfusion hkey
        | some c => rfl
    simp only [shouldDelete] at h
    obtain ⟨c, hc⟩ := Option.isSome_iff_exists.mp hcc
    rw [hc] at h
    split at h
    · exact Bool.noConfusion h
    · simp [hbk] at h

theorem claim_C3_counterexample :
    (planCounts (computePlan ["CS101-A"]
      [{ id := "CS101-A-R1-X", courseCode := "CS101-A", courseName := "CS101",
         sect := "A", location := "R1", professor := "P", date := ⟨2026, 1, 14⟩,
         timeSlot := ⟨"9:00AM", "10:30AM"⟩, week := 1, day := "Mon",
         status := "active", isCancelled := false, isRed := false,
         hasStrikethrough := false }]
      [{ gid := "g1", summary := "Old", location := "R2",
         description := "Professor: P\nLocation: R2\nWeek: 1",
         scheduleEventId := none, courseCode := some "CS101-A",
         appCreated := false, startDate := ⟨2026, 1, 14⟩, startHour := 9,
         startMin := 0 }]) = (1, 0, 0)) := by
  decide

/-- C1 counterexample: the remote window is not filtered to records this
system created (the source explicitly lists without a private-property
filter); a record with no app metadata at all, not created by this system,
is placed in the delete set by the orphan fallthrough of the delete
filter. -/
theorem claim_C1_counterexample :
    (computePlan [] []
      [(⟨"g9", "Dentist", "", "", none, none, false, ⟨2026, 1, 14⟩, 9, 0⟩ :
        CalEvent)]).toDelete =
      [(⟨"g9", "Dentist", "", "", none, none, false, ⟨2026, 1, 14⟩, 9, 0⟩ :
        CalEvent)]
    ∧ (⟨"g9", "Dentist", "", "", none, none, false, ⟨2026, 1, 14⟩, 9, 0⟩ :
        CalEvent).appCreated = false := by
  decide

/-- C1 amended: the engine considers every remote record in the time window,
not only records this system created, and it may delete records it did not
create; what does hold of the delete set is that every deleted record is
unmatched: its scheduleEventId (when present) does not occur among the
canonical event ids, and when it carries courseCode metadata its derived
base key does not occur among the canonical base keys. -/
theorem claim_C1_amended (sel : List String) (allEvents : List ScheduleEvent)
    (existing : List CalEvent) (r : CalEvent)
    (hmem : r ∈ (computePlan sel allEvents existing).toDelete) :
    (∀ s, r.scheduleEventId = some s →
      ueHasId (userEventsOf sel allEvents) s = false)
    ∧ (∀ c, r.courseCode = some c →
      newBaseKeysHas (userEventsOf sel allEvents) (baseKeyR r) = false) := by
  have h := (List.mem_filter.mp hmem).2
  simp only [shouldDelete] at h
  constructor
  · intro s hs
    cases hval : ueHasId (userEventsOf sel allEvents) s with
    | false => rfl
    | true =>
      rw [hs] at h
      simp [hval] at h
  · intro c hc
    cases hval : newBaseKeysHas (userEventsOf sel allEvents) (baseKeyR r) with
    | false => rfl
    | true =>
      rw [hc] at h
      simp [hval] at h

theorem claim_C1_witness :
    (∀ s, (⟨"g1", "CS101-A", "R1", "", some "gone-id", some "CS101-A", true,
        ⟨2026, 1, 14⟩, 9, 0⟩ : CalEvent).scheduleEventId = some s →
      ueHasId (userEventsOf ["CS101-A"] []) s = false)
    ∧ (∀ c, (⟨"g1", "CS101-A", "R1", "", some "gone-id", some "CS101-A", true,
        ⟨2026, 1, 14⟩, 9, 0⟩ : CalEvent).courseCode = some c →
      newBaseKeysHas (userEventsOf ["CS101-A"] [])
        (baseKeyR (⟨"g1", "CS101-A", "R1", "", some "gone-id", some "CS101-A",
          true, ⟨2026, 1, 14⟩, 9, 0⟩ : CalEvent)) = false) :=
  claim_C1_amended ["CS101-A"] []
    [(⟨"g1", "CS101-A", "R1", "", some "gone-id", some "CS101-A", true,
      ⟨2026, 1, 14⟩, 9, 0⟩ : CalEvent)] _ (by decide)

theorem claim_C3_witness :
    (computePlan ["CS101-A"]
      [{ id := "CS101-A-R1-X", courseCode := "CS101-A", courseName := "CS101",
         sect := "A", location := "R1", professor := "P", date := ⟨2026, 1, 14⟩,
         timeSlot := ⟨"9:00AM", "10:30AM"⟩, week := 1, day := "Mon",
         status := "active", isCancelled := false, isRed := false,
         hasStrikethrough := false }]
      [{ gid := "g1", summary := "Old", location := "R2",
         description := "Professor: P\nLocation: R2\nWeek: 1",
         scheduleEventId := some "stale-id", courseCode := some "CS101-A",
         appCreated := true, startDate := ⟨2026, 1, 14⟩, startHour := 9,
         startMin := 0 }]).toUpdate.count
      ({ gid := "g1", summary := "Old", location := "R2",
         description := "Professor: P\nLocation: R2\nWeek: 1",
         scheduleEventId := some "stale-id", courseCode := some "CS101-A",
         appCreated := true, startDate := ⟨2026, 1, 14⟩, startHour := 9,
         startMin := 0 },
       { id := "CS101-A-R1-X", courseCode := "CS101-A", courseName := "CS101",
         sect := "A", location := "R1", professor := "P", date := ⟨2026, 1, 14⟩,
         timeSlot := ⟨"9:00AM", "10:30AM"⟩, week := 1, day := "Mon",
         status := "active", isCancelled := false, isRed := false,
         hasStrikethrough := false }) = 1 :=
  (claim_C3_amended ["CS101-A"] _ _ _ _ (by decide) (by decide) (by decide)
    (by decide) (by decide)).1

theorem recFromEvent_gid (now : JsDate × Nat × Nat) (e : ScheduleEvent) (g : String) :
    (recFromEvent now e g).gid = g := rfl

theorem recFromEvent_schedId (now : JsDate × Nat × Nat) (e : ScheduleEvent) (g : String) :
    (recFromEvent now e g).scheduleEventId = some e.id := rfl

theorem recFromEvent_location (now : JsDate × Nat × Nat) (e : ScheduleEvent) (g : String) :
    (recFromEvent now e g).location = e.location := rfl

theorem recFromEvent_descr (now : JsDate × Nat × Nat) (e : ScheduleEvent) (g : String) :
    (recFromEvent now e g).description = descriptionOf e := rfl

theorem strData_append (s t : String) : (s ++ t).data = s.data ++ t.data := rfl

theorem isPrefixC_self_append : ∀ (l m : List Char), isPrefixC l (l ++ m) = true := by
  intro l
  induction l with
  | nil => intro m; rfl
  | cons c r ih => intro m; simp [isPrefixC, ih]

theorem containsC_nil_sub : ∀ (l : List Char), containsC [] l = true := by
  intro l
  cases l with
  | nil => rfl
  | cons c r => simp [containsC, isPrefixC]

theorem containsC_mid : ∀ (a p b : List Char), containsC p (a ++ (p ++ b)) = true := by
  intro a
  induction a with
  | nil =>
    intro p b
    cases p with
    | nil => exact containsC_nil_sub _
    | cons c r =>
      show (isPrefixC (c :: r) ((c :: r) ++ b) || containsC (c :: r) (r ++ b)) = true
      rw [isPrefixC_self_append]
      simp
  | cons c r ih =>
    intro p b
    show containsC p (c :: (r ++ (p ++ b))) = true
    simp [containsC, ih p b]

theorem strContains_descriptionOf (e : ScheduleEvent) :
    strContains (descriptionOf e) e.professor = true := by
  show containsC e.professor.data (descriptionOf e).data = true
  have hdata : (descriptionOf e).data =
      "Professor: ".data ++ (e.professor.data ++
        ("\nLocation: " ++ e.location ++ "\nWeek: " ++ natStr e.week).data) := by
    simp [descriptionOf, strData_append, List.append_assoc]
  rw [hdata]
  exact containsC_mid _ _ _

theorem pairwise_ne_inj {α β : Type} (f : α → β) :
    ∀ (l : List α), l.Pairwise (fun x y => f x ≠ f y) →
      ∀ x ∈ l, ∀ y ∈ l, f x = f y → x = y := by
  intro l
  induction l with
  | nil => intro _ x hx; simp at hx
  | cons a t ih =>
    intro h x hx y hy hf
    have h1 := (List.pairwise_cons.mp h).1
    have h2 := (List.pairwise_cons.mp h).2
    rcases List.mem_cons.mp hx with rfl | hxt
    · rcases List.mem_cons.mp hy with rfl | hyt
      · rfl
      · exact absurd hf (h1 y hyt)
    · rcases List.mem_cons.mp hy with rfl | hyt
      · exact absurd hf.symm (h1 x hxt)
      · exact ih h2 x hxt y hyt hf

theorem pairwise_filterMap_mem {α β : Type} (f : α → Option β) (R : α → α → Prop)
    (S : β → β → Prop) :
    ∀ (l : List α),
      (∀ a b x y, a ∈ l → b ∈ l → R a b → f a = some x → f b = some y → S x y) →
      l.Pairwise R → (l.filterMap f).Pairwise S := by
  intro l
  induction l with
  | nil => intro _ _; exact List.Pairwise.nil
  | cons a t ih =>
    intro hRS h
    have h1 := (List.pairwise_cons.mp h).1
    have h2 := (List.pairwise_cons.mp h).2
    have hRS' : ∀ a2 b x y, a2 ∈ t → b ∈ t → R a2 b → f a2 = some x → f b = some y →
        S x y := fun a2 b x y ha hb =>
      hRS a2 b x y (List.mem_cons_of_mem a ha) (List.mem_cons_of_mem a hb)
    cases hfa : f a with
    | none =>
      simp only [List.filterMap_cons, hfa]
      exact ih hRS' h2
    | some x =>
      simp only [List.filterMap_cons, hfa]
      refine List.pairwise_cons.mpr ⟨?_, ih hRS' h2⟩
      intro y hy
      obtain ⟨b, hb, hfb⟩ := List.mem_filterMap.mp hy
      exact hRS a b x y (List.mem_cons_self a t) (List.mem_cons_of_mem a hb)
        (h1 b hb) hfa hfb

theorem classify_noop_inv (st : List CalEvent) (e : ScheduleEvent)
    (h : classify st e = SyncAction.noop) :
    ∃ r, exactLookup st e.id = some r ∧ r.location = e.location ∧
      strContains r.description e.professor = true := by
  unfold classify at h
  cases hex : exactLookup st e.id with
  | some ex =>
    rw [hex] at h
    have h2 : (if (ex.location != e.location || !strContains ex.description e.professor) = true
        then SyncAction.update ex else SyncAction.noop) = SyncAction.noop := h
    by_cases hc : (ex.location != e.location || !strContains ex.description e.professor) = true
    · rw [if_pos hc] at h2
      exact absurd h2 (by simp)
    · have hcf : (ex.location != e.location || !strContains ex.description e.professor) = false := by
        revert hc
        cases ex.location != e.location || !strContains ex.description e.professor <;> simp
      obtain ⟨hl, hd⟩ := Bool.or_eq_false_iff.mp hcf
      refine ⟨ex, rfl, ?_, ?_⟩
      · simpa using hl
      · simpa using hd
  | none =>
    rw [hex] at h
    cases hb : baseLookup st (baseKeyE e) with
    | some bm => rw [hb] at h; exact absurd h (by simp)
    | none =>
      rw [hb] at h
      cases hs : summaryLookup st (summaryKeyE e) with
      | some sm => rw [hs] at h; exact absurd h (by simp)
      | none => rw [hs] at h; exact absurd h (by simp)

theorem classify_update_inv (st : List CalEvent) (e : ScheduleEvent) (r : CalEvent)
    (h : classify st e = SyncAction.update r) :
    exactLookup st e.id = some r
    ∨ (exactLookup st e.id = none ∧ baseLookup st (baseKeyE e) = some r)
    ∨ (exactLookup st e.id = none ∧ baseLookup st (baseKeyE e) = none ∧
        summaryLookup st (summaryKeyE e) = some r) := by
  unfold classify at h
  cases hex : exactLookup st e.id with
  | some ex =>
    rw [hex] at h
    have h2 : (if (ex.location != e.location || !strContains ex.description e.professor) = true
        then SyncAction.update ex else SyncAction.noop) = SyncAction.update r := h
    by_cases hc : (ex.location != e.location || !strContains ex.description e.professor) = true
    · rw [if_pos hc] at h2
      left
      injection h2 with h3
      rw [← h3]
    · rw [if_neg hc] at h2
      exact absurd h2 (by simp)
  | none =>
    rw [hex] at h
    cases hb : baseLookup st (baseKeyE e) with
    | some bm =>
      rw [hb] at h
      have h2 : SyncAction.update bm = SyncAction.update r := h
      right; left
      injection h2 with h3
      exact ⟨rfl, by rw [← h3]⟩
    | none =>
      rw [hb] at h
      cases hs : summaryLookup st (summaryKeyE e) with
      | some sm =>
        rw [hs] at h
        have h2 : SyncAction.update sm = SyncAction.update r := h
        right; right
        injection h2 with h3
        exact ⟨rfl, rfl, by rw [← h3]⟩
      | none =>
        rw [hs] at h
        exact absurd h (by simp)

theorem classify_exact_noop (st : List CalEvent) (e : ScheduleEvent) (r : CalEvent)
    (hex : exactLookup st e.id = some r) (hl : r.location = e.location)
    (hd : strContains r.description e.professor = true) :
    classify st e = SyncAction.noop := by
  unfold classify
  rw [hex]
  show (if (r.location != e.location || !strContains r.description e.professor) = true
      then SyncAction.update r else SyncAction.noop) = SyncAction.noop
  rw [hl, hd]
  simp

theorem baseKeyOf_eq (r : CalEvent) (k : String) (h : baseKeyOf r = some k) :
    baseKeyR r = k := by
  unfold baseKeyOf at h
  cases hs : r.scheduleEventId with
  | none => rw [hs] at h; exact Option.noConfusion h
  | some s =>
    cases hc : r.courseCode with
    | none => rw [hs, hc] at h; exact Option.noConfusion h
    | some c =>
      rw [hs, hc] at h
      exact Option.some.inj h

theorem baseKeyOf_courseCode (r : CalEvent) (k : String) (h : baseKeyOf r = some k) :
    r.courseCode.isSome = true := by
  unfold baseKeyOf at h
  cases hs : r.scheduleEventId with
  | none => rw [hs] at h; exact Option.noConfusion h
  | some s =>
    cases hc : r.courseCode with
    | none => rw [hs, hc] at h; exact Option.noConfusion h
    | some c => rfl

theorem find?_eq_of_all {α : Type} (p : α → Bool) :
    ∀ (l : List α) (x : α), x ∈ l → p x = true → (∀ y ∈ l, p y = true → y = x) →
      l.find? p = some x := by
  intro l
  induction l with
  | nil => intro x hx; simp at hx
  | cons a t ih =>
    intro x hx hpx hall
    by_cases hpa : p a = true
    · have hax : a = x := hall a (List.mem_cons_self a t) hpa
      subst hax
      rw [List.find?_cons_of_pos _ hpa]
    · have hpaf : ¬ p a = true := hpa
      rcases List.mem_cons.mp hx with rfl | hxt
      · exact absurd hpx hpa
      · rw [List.find?_cons_of_neg _ hpaf]
        exact ih x hxt hpx (fun y hy hpy => hall y (List.mem_cons_of_mem a hy) hpy)

theorem updImage_gid (now : JsDate × Nat × Nat) (ups : List (CalEvent × ScheduleEvent))
    (r : CalEvent) : (updImage now ups r).gid = r.gid := by
  unfold updImage
  cases ups.find? (fun pr => pr.1.gid == r.gid) with
  | some pr => rfl
  | none => rfl

theorem applyUpdates_char (now : JsDate × Nat × Nat) :
    ∀ (ups : List (CalEvent × ScheduleEvent)) (st : List CalEvent),
      ups.Pairwise (fun p q => p.1.gid ≠ q.1.gid) →
      ups.foldl (fun st pr => st.map fun r =>
          if r.gid = pr.1.gid then recFromEvent now pr.2 r.gid else r) st =
        st.map (updImage now ups) := by
  intro ups
  induction ups with
  | nil =>
    intro st _
    show st = st.map (updImage now [])
    have hid : ∀ r, updImage now ([] : List (CalEvent × ScheduleEvent)) r = r := by
      intro r; rfl
    have hmap : st.map (updImage now []) = st.map id :=
      List.map_congr_left fun r _ => hid r
    rw [hmap, List.map_id]
  | cons p ups ih =>
    intro st hnd
    have hnd1 := (List.pairwise_cons.mp hnd).1
    have hnd2 := (List.pairwise_cons.mp hnd).2
    show ups.foldl _ (st.map _) = _
    rw [ih _ hnd2, List.map_map]
    apply List.map_congr_left
    intro r _
    show updImage now ups (if r.gid = p.1.gid then recFromEvent now p.2 r.gid else r) =
      updImage now (p :: ups) r
    by_cases hg : r.gid = p.1.gid
    · rw [if_pos hg]
      have hfind : ups.find? (fun pr => pr.1.gid == (recFromEvent now p.2 r.gid).gid) =
          none := by
        rw [List.find?_eq_none]
        intro q hq
        simp [recFromEvent_gid]
        rw [hg]
        exact fun hcon => (hnd1 q hq) hcon.symm
      have h1 : updImage now ups (recFromEvent now p.2 r.gid) =
          recFromEvent now p.2 r.gid := by
        unfold updImage
        rw [hfind]
      have h2 : updImage now (p :: ups) r = recFromEvent now p.2 r.gid := by
        unfold updImage
        rw [List.find?_cons_of_pos _ (by simp [hg])]
      rw [h1, h2]
    · rw [if_neg hg]
      unfold updImage
      rw [List.find?_cons_of_neg _ (by simp; exact fun hcon => hg hcon.symm)]

theorem enum_snd_mem {α : Type} (l : List α) :
    ∀ pr ∈ l.enum, pr.2 ∈ l := by
  intro pr hpr
  have hm : pr.2 ∈ l.enum.map Prod.snd := List.mem_map_of_mem _ hpr
  rwa [List.enum_map_snd] at hm

theorem mem_enum_of_mem {α : Type} (l : List α) (a : α) (ha : a ∈ l) :
    ∃ pr ∈ l.enum, pr.2 = a := by
  have hm : a ∈ l.enum.map Prod.snd := by rw [List.enum_map_snd]; exact ha
  obtain ⟨pr, hpr, hpr2⟩ := List.mem_map.mp hm
  exact ⟨pr, hpr, hpr2⟩

theorem pairwise_opt_inj {α : Type} (f : α → Option String) :
    ∀ (l : List α), l.Pairwise (fun a b => ∀ s, f a = some s → f b ≠ some s) →
      ∀ x ∈ l, ∀ y ∈ l, ∀ s, f x = some s → f y = some s → x = y := by
  intro l
  induction l with
  | nil => intro _ x hx; simp at hx
  | cons a t ih =>
    intro h x hx y hy s hfx hfy
    have h1 := (List.pairwise_cons.mp h).1
    have h2 := (List.pairwise_cons.mp h).2
    rcases List.mem_cons.mp hx with rfl | hxt
    · rcases List.mem_cons.mp hy with rfl | hyt
      · rfl
      · exact absurd hfy (h1 y hyt s hfx)
    · rcases List.mem_cons.mp hy with rfl | hyt
      · exact absurd hfx (h1 x hxt s hfy)
      · exact ih h2 x hxt y hyt s hfx hfy

theorem lastWith_unique_tag {α : Type} (keyOf : α → Option String) (g : α → String)
    (l : List α) (k : String) (hpw : l.Pairwise (fun a b => g a ≠ g b)) (x : α)
    (hx : x ∈ l) (hkx : keyOf x = some k)
    (huniq : ∀ y ∈ l, keyOf y = some k → y = x) :
    lastWith keyOf l k = some x := by
  obtain ⟨l1, l2, heq⟩ := List.append_of_mem hx
  subst heq
  apply lastWith_last keyOf k l1 l2 x hkx
  intro y hy hky
  have hyx : y = x := huniq y
    (List.mem_append_right l1 (List.mem_cons_of_mem x hy)) hky
  have hsub : (x :: l2).Pairwise (fun a b => g a ≠ g b) :=
    hpw.sublist (List.sublist_append_right l1 (x :: l2))
  have hrel : g x ≠ g y := (List.pairwise_cons.mp hsub).1 y hy
  rw [hyx] at hrel
  exact absurd rfl hrel

theorem shouldDelete_false_of_sched (sel : List String) (ue : List ScheduleEvent)
    (r : CalEvent) (s : String) (hs : r.scheduleEventId = some s)
    (hhas : ueHasId ue s = true) : shouldDelete sel ue r = false := by
  unfold shouldDelete
  rw [hs]
  simp [hhas]

theorem shouldDelete_false_of_base (sel : List String) (ue : List ScheduleEvent)
    (r : CalEvent) (c : String) (hc : r.courseCode = some c)
    (hbk : newBaseKeysHas ue (baseKeyR r) = true) :
    shouldDelete sel ue r = false := by
  unfold shouldDelete
  rw [hc]
  by_cases h1 : (match r.scheduleEventId with
      | some s => ueHasId ue s
      | none => false) = true
  · rw [if_pos h1]
  · rw [if_neg h1, if_pos (by rw [hbk])]

theorem classify_update_target_mem (st : List CalEvent) (e : ScheduleEvent)
    (r : CalEvent) (h : classify st e = SyncAction.update r) : r ∈ st := by
  rcases classify_update_inv st e r h with hx | ⟨_, hx⟩ | ⟨_, _, hx⟩
  · exact (lastWith_mem exactKey _ st r hx).1
  · exact (lastWith_mem baseKeyOf _ st r hx).1
  · exact (lastWith_mem summaryKeyOf _ st r hx).1

theorem updImage_none (now : JsDate × Nat × Nat) (ups : List (CalEvent × ScheduleEvent))
    (r : CalEvent) (h : ups.find? (fun pr => pr.1.gid == r.gid) = none) :
    updImage now ups r = r := by
  unfold updImage
  rw [h]

theorem updImage_some (now : JsDate × Nat × Nat) (ups : List (CalEvent × ScheduleEvent))
    (r : CalEvent) (pr : CalEvent × ScheduleEvent)
    (h : ups.find? (fun pr2 => pr2.1.gid == r.gid) = some pr) :
    updImage now ups r = recFromEvent now pr.2 r.gid := by
  unfold updImage
  rw [h]

theorem exactLookup_append (l1 l2 : List CalEvent) (k : String) :
    exactLookup (l1 ++ l2) k =
      match exactLookup l2 k with
      | some r => some r
      | none => exactLookup l1 k := by
  unfold exactLookup
  rw [lastWith_app exactKey k l1 l2]
  cases lastWith exactKey l2 k <;> rfl

/-- C2 amended: reconciliation is idempotent under these hygiene hypotheses:
the subscriber's canonical events carry pairwise distinct ids and pairwise
distinct base keys; the remote records carry pairwise distinct provider ids
and pairwise distinct scheduleEventId metadata (the spec's own invariant
that every ScheduleEvent.id maps to at most one remote record); a remote
record claiming a canonical event's id agrees with that event's base key;
and no canonical event falls through to the summary-fallback tier. Then
applying the first run's create/update/delete sets and re-running computes
empty create, update and delete sets, returning counts (0, 0, 0). Without
these hypotheses the second run can be nonempty: a record matched only by
the summary fallback is updated and then deleted by the same run, so the
second run re-creates it (see the counterexample). -/
theorem claim_C2_amended (sel : List String) (allEvents : List ScheduleEvent)
    (existing : List CalEvent) (fresh : Nat → String) (now : JsDate × Nat × Nat)
    (H0 : (userEventsOf sel allEvents).Pairwise (fun e1 e2 => e1.id ≠ e2.id))
    (H1 : (userEventsOf sel allEvents).Pairwise
      (fun e1 e2 => baseKeyE e1 ≠ baseKeyE e2))
    (H3 : ∀ r ∈ existing, ∀ e ∈ userEventsOf sel allEvents,
      r.scheduleEventId = some e.id → baseKeyR r = baseKeyE e)
    (H4 : ∀ e ∈ userEventsOf sel allEvents,
      exactLookup existing e.id = none →
      baseLookup existing (baseKeyE e) = none →
      summaryLookup existing (summaryKeyE e) = none)
    (H6 : existing.Pairwise (fun r1 r2 => r1.gid ≠ r2.gid))
    (H7 : existing.Pairwise
      (fun r1 r2 => ∀ s, r1.scheduleEventId = some s →
        r2.scheduleEventId ≠ some s)) :
    planCounts (computePlan sel allEvents
      (applyPlan existing (computePlan sel allEvents existing) fresh now)) =
      (0, 0, 0) := by
  have hid_inj := pairwise_ne_inj (fun e : ScheduleEvent => e.id) _ H0
  have hbk_inj := pairwise_ne_inj baseKeyE _ H1
  have hgid_inj := pairwise_ne_inj (fun r : CalEvent => r.gid) _ H6
  have hsid_inj := pairwise_opt_inj (fun r : CalEvent => r.scheduleEventId) _ H7
  have hupd_mem : ∀ pr ∈ (computePlan sel allEvents existing).toUpdate,
      pr.2 ∈ userEventsOf sel allEvents ∧
        classify existing pr.2 = SyncAction.update pr.1 := by
    intro pr hpr
    obtain ⟨e, he, hfe⟩ := List.mem_filterMap.mp hpr
    cases hcl : classify existing e with
    | noop => rw [hcl] at hfe; exact absurd hfe (by simp)
    | create => rw [hcl] at hfe; exact absurd hfe (by simp)
    | update ex =>
      rw [hcl] at hfe
      have hpe : (ex, e) = pr := Option.some.inj hfe
      rw [← hpe]
      exact ⟨he, hcl⟩
  have hcreate_mem : ∀ e ∈ (computePlan sel allEvents existing).toCreate,
      e ∈ userEventsOf sel allEvents ∧ classify existing e = SyncAction.create := by
    intro e he
    have h := List.mem_filter.mp he
    refine ⟨h.1, ?_⟩
    have h2 := h.2
    cases hcl : classify existing e with
    | noop => rw [hcl] at h2; exact absurd h2 (by simp)
    | update ex => rw [hcl] at h2; exact absurd h2 (by simp)
    | create => rfl
  have hclass2 : ∀ e ∈ userEventsOf sel allEvents, ∀ r,
      classify existing e = SyncAction.update r →
      exactLookup existing e.id = some r ∨
        (exactLookup existing e.id = none ∧
          baseLookup existing (baseKeyE e) = some r) := by
    intro e he r hcl
    rcases classify_update_inv existing e r hcl with hx | hx | ⟨h1, h2, h3⟩
    · exact Or.inl hx
    · exact Or.inr hx
    · rw [H4 e he h1 h2] at h3
      exact absurd h3 (by simp)
  have huniq : ∀ e1 ∈ userEventsOf sel allEvents, ∀ e2 ∈ userEventsOf sel allEvents,
      ∀ r, classify existing e1 = SyncAction.update r →
        classify existing e2 = SyncAction.update r → e1 = e2 := by
    intro e1 he1 e2 he2 r hc1 hc2
    rcases hclass2 e1 he1 r hc1 with hx1 | ⟨hn1, hb1⟩
    · have k1 := (lastWith_mem exactKey _ existing r hx1).2
      have hrmem := (lastWith_mem exactKey _ existing r hx1).1
      rcases hclass2 e2 he2 r hc2 with hx2 | ⟨hn2, hb2⟩
      · have k2 := (lastWith_mem exactKey _ existing r hx2).2
        exact hid_inj e1 he1 e2 he2 (Option.some.inj (k1.symm.trans k2))
      · have hb := (lastWith_mem baseKeyOf _ existing r hb2).2
        have hbr : baseKeyR r = baseKeyE e2 := baseKeyOf_eq r _ hb
        have h3 := H3 r hrmem e1 he1 k1
        exact hbk_inj e1 he1 e2 he2 (by rw [← h3, hbr])
    · have hb := (lastWith_mem baseKeyOf _ existing r hb1).2
      have hbr1 : baseKeyR r = baseKeyE e1 := baseKeyOf_eq r _ hb
      have hrmem := (lastWith_mem baseKeyOf _ existing r hb1).1
      rcases hclass2 e2 he2 r hc2 with hx2 | ⟨hn2, hb2⟩
      · have k2 := (lastWith_mem exactKey _ existing r hx2).2
        have h3 := H3 r hrmem e2 he2 k2
        exact hbk_inj e1 he1 e2 he2 (by rw [← hbr1, h3])
      · have hb2k := (lastWith_mem baseKeyOf _ existing r hb2).2
        have hbr2 : baseKeyR r = baseKeyE e2 := baseKeyOf_eq r _ hb2k
        exact hbk_inj e1 he1 e2 he2 (by rw [← hbr1, hbr2])
  have hpair_gid : (computePlan sel allEvents existing).toUpdate.Pairwise
      (fun p q => p.1.gid ≠ q.1.gid) := by
    apply pairwise_filterMap_mem _ (fun e1 e2 : ScheduleEvent => e1.id ≠ e2.id) _
      (userEventsOf sel allEvents) ?_ H0
    intro a b x y ha hb hR hfa hfb
    have hxa : classify existing a = SyncAction.update x.1 ∧ x.2 = a := by
      cases hcl : classify existing a with
      | noop => rw [hcl] at hfa; exact absurd hfa (by simp)
      | create => rw [hcl] at hfa; exact absurd hfa (by simp)
      | update ex =>
        rw [hcl] at hfa
        have hpe : (ex, a) = x := Option.some.inj hfa
        rw [← hpe]
        exact ⟨rfl, rfl⟩
    have hyb : classify existing b = SyncAction.update y.1 ∧ y.2 = b := by
      cases hcl : classify existing b with
      | noop => rw [hcl] at hfb; exact absurd hfb (by simp)
      | create => rw [hcl] at hfb; exact absurd hfb (by simp)
      | update ex =>
        rw [hcl] at hfb
        have hpe : (ex, b) = y := Option.some.inj hfb
        rw [← hpe]
        exact ⟨rfl, rfl⟩
    intro hg
    have hx1 : x.1 ∈ existing := classify_update_target_mem existing a x.1 hxa.1
    have hy1 : y.1 ∈ existing := classify_update_target_mem existing b y.1 hyb.1
    have hxy : x.1 = y.1 := hgid_inj x.1 hx1 y.1 hy1 hg
    have hab : a = b := huniq a ha b hb x.1 hxa.1 (by rw [hxy]; exact hyb.1)
    exact hR (by rw [hab])
  have hst2 : applyPlan existing (computePlan sel allEvents existing) fresh now =
      ((existing.map (updImage now (computePlan sel allEvents existing).toUpdate)).filter
        (fun r => !((computePlan sel allEvents existing).toDelete.any
          fun dl => dl.gid = r.gid)))
        ++ (computePlan sel allEvents existing).toCreate.enum.map
            (fun pr => recFromEvent now pr.2 (fresh pr.1)) := by
    show ((computePlan sel allEvents existing).toUpdate.foldl _ existing).filter _ ++ _ = _
    rw [applyUpdates_char now _ existing hpair_gid]
  rw [hst2]
  set base := (existing.map
      (updImage now (computePlan sel allEvents existing).toUpdate)).filter
      (fun r => !((computePlan sel allEvents existing).toDelete.any
        fun dl => dl.gid = r.gid)) with hbase
  set creates := (computePlan sel allEvents existing).toCreate.enum.map
      (fun pr => recFromEvent now pr.2 (fresh pr.1)) with hcreates
  have hcreates_mem : ∀ rc ∈ creates, ∃ e', e' ∈ userEventsOf sel allEvents ∧
      classify existing e' = SyncAction.create ∧ ∃ g, rc = recFromEvent now e' g := by
    intro rc hrc
    rw [hcreates] at hrc
    obtain ⟨pr, hpr, hpr2⟩ := List.mem_map.mp hrc
    have hsnd := enum_snd_mem _ pr hpr
    have hcm := hcreate_mem pr.2 hsnd
    exact ⟨pr.2, hcm.1, hcm.2, fresh pr.1, hpr2.symm⟩
  have hcreates_none : ∀ e ∈ userEventsOf sel allEvents,
      classify existing e ≠ SyncAction.create → exactLookup creates e.id = none := by
    intro e he hne
    apply (lastWith_none_iff exactKey e.id creates).mpr
    intro rcm hrcm hkey
    obtain ⟨e', he', hcl', g, hrc⟩ := hcreates_mem rcm hrcm
    rw [hrc] at hkey
    have hkey2 : some e'.id = some e.id := hkey
    have hee : e' = e := hid_inj e' he' e he (Option.some.inj hkey2)
    rw [hee] at hcl'
    exact hne hcl'
  have hcreates_some : ∀ e ∈ userEventsOf sel allEvents,
      classify existing e = SyncAction.create →
      ∃ rc, exactLookup creates e.id = some rc ∧ rc.location = e.location ∧
        strContains rc.description e.professor = true := by
    intro e he hcl
    have heC : e ∈ (computePlan sel allEvents existing).toCreate :=
      List.mem_filter.mpr ⟨he, by rw [hcl]⟩
    obtain ⟨pr, hpr, hpr2⟩ := mem_enum_of_mem _ e heC
    have hmemc : recFromEvent now e (fresh pr.1) ∈ creates := by
      rw [hcreates, ← hpr2]
      exact List.mem_map_of_mem _ hpr
    cases hlc : exactLookup creates e.id with
    | none =>
      exfalso
      exact (lastWith_none_iff exactKey e.id creates).mp hlc _ hmemc rfl
    | some rc =>
      obtain ⟨hmemrc, hkeyrc⟩ := lastWith_mem exactKey e.id creates rc hlc
      obtain ⟨e', he', _, g, hrc⟩ := hcreates_mem rc hmemrc
      rw [hrc] at hkeyrc
      have hee : e' = e := hid_inj e' he' e he (Option.some.inj hkeyrc)
      refine ⟨rc, rfl, ?_, ?_⟩
      · rw [hrc, hee]
        exact recFromEvent_location now e g
      · rw [hrc, hee]
        exact strContains_descriptionOf e
  have hbase_pw : base.Pairwise (fun a b => a.gid ≠ b.gid) := by
    rw [hbase]
    apply List.Pairwise.sublist (List.filter_sublist _)
    apply List.Pairwise.map _ ?_ H6
    intro a b hab
    rw [updImage_gid, updImage_gid]
    exact hab
  have hbase_of : ∀ z ∈ existing,
      shouldDelete sel (userEventsOf sel allEvents) z = false →
      updImage now (computePlan sel allEvents existing).toUpdate z ∈ base := by
    intro z hz hsd
    rw [hbase]
    apply List.mem_filter.mpr
    refine ⟨List.mem_map_of_mem _ hz, ?_⟩
    have hany : ((computePlan sel allEvents existing).toDelete.any
        fun dl => dl.gid =
          (updImage now (computePlan sel allEvents existing).toUpdate z).gid) =
        false := by
      simp only [updImage_gid]
      rw [List.any_eq_false]
      intro dl hdl
      have hdm := List.mem_filter.mp hdl
      intro hgdl
      have hgd : dl.gid = z.gid := by simpa using hgdl
      have hdz : dl = z := hgid_inj dl hdm.1 z hz hgd
      rw [hdz] at hdm
      rw [hsd] at hdm
      exact Bool.noConfusion hdm.2
    rw [hany]
    rfl
  have hfind_target : ∀ e ∈ userEventsOf sel allEvents, ∀ r,
      classify existing e = SyncAction.update r →
      (computePlan sel allEvents existing).toUpdate.find?
        (fun pr => pr.1.gid == r.gid) = some (r, e) := by
    intro e he r hcl
    apply find?_eq_of_all
    · apply List.mem_filterMap.mpr
      exact ⟨e, he, by rw [hcl]⟩
    · simp
    · intro q hq hpq
      have hq1g : q.1.gid = r.gid := by simpa using hpq
      have hq1 : q.1 ∈ existing :=
        classify_update_target_mem existing q.2 q.1 (hupd_mem q hq).2
      have hrmem : r ∈ existing := classify_update_target_mem existing e r hcl
      have hq1r : q.1 = r := hgid_inj q.1 hq1 r hrmem hq1g
      have hq2e : q.2 = e := huniq q.2 (hupd_mem q hq).1 e he r
        (by rw [← hq1r]; exact (hupd_mem q hq).2) hcl
      exact Prod.ext_iff.mpr ⟨hq1r, hq2e⟩
  have hnoop_all : ∀ e ∈ userEventsOf sel allEvents,
      classify (base ++ creates) e = SyncAction.noop := by
    intro e he
    have hmain : ∃ rc, exactLookup (base ++ creates) e.id = some rc ∧
        rc.location = e.location ∧ strContains rc.description e.professor = true := by
      cases hcl : classify existing e with
      | create =>
        obtain ⟨rc, hlk, hl, hd⟩ := hcreates_some e he hcl
        refine ⟨rc, ?_, hl, hd⟩
        rw [exactLookup_append, hlk]
      | noop =>
        obtain ⟨r, hex, hl, hd⟩ := classify_noop_inv existing e hcl
        have hrmem := (lastWith_mem exactKey e.id existing r hex).1
        have hrkey := (lastWith_mem exactKey e.id existing r hex).2
        have hfind : (computePlan sel allEvents existing).toUpdate.find?
            (fun pr => pr.1.gid == r.gid) = none := by
          rw [List.find?_eq_none]
          intro q hq hpq
          have hqg : q.1.gid = r.gid := by simpa using hpq
          have hq1 : q.1 ∈ existing :=
            classify_update_target_mem existing q.2 q.1 (hupd_mem q hq).2
          have hq1r : q.1 = r := hgid_inj q.1 hq1 r hrmem hqg
          have hclq : classify existing q.2 = SyncAction.update r := by
            rw [← hq1r]; exact (hupd_mem q hq).2
          rcases hclass2 q.2 (hupd_mem q hq).1 r hclq with hx | ⟨hn, hb⟩
          · have k2 := (lastWith_mem exactKey _ existing r hx).2
            have hq2e : q.2 = e := hid_inj q.2 (hupd_mem q hq).1 e he
              (Option.some.inj (k2.symm.trans hrkey))
            rw [hq2e] at hclq
            rw [hclq] at hcl
            exact absurd hcl (by simp)
          · have hbk := (lastWith_mem baseKeyOf _ existing r hb).2
            have hbr : baseKeyR r = baseKeyE q.2 := baseKeyOf_eq r _ hbk
            have h3 := H3 r hrmem e he hrkey
            have hq2e : q.2 = e := hbk_inj q.2 (hupd_mem q hq).1 e he
              (by rw [← hbr, h3])
            rw [hq2e] at hn
            rw [hn] at hex
            exact Option.noConfusion hex
        have himg : updImage now (computePlan sel allEvents existing).toUpdate r = r :=
          updImage_none now _ r hfind
        have hsd : shouldDelete sel (userEventsOf sel allEvents) r = false :=
          shouldDelete_false_of_sched sel _ r e.id hrkey
            (List.any_eq_true.mpr ⟨e, he, by simp⟩)
        have hrbase : r ∈ base := by
          have hb := hbase_of r hrmem hsd
          rwa [himg] at hb
        have hbuniq : ∀ y ∈ base, exactKey y = some e.id → y = r := by
          intro y hy hky
          rw [hbase] at hy
          obtain ⟨z, hz, hzy⟩ := List.mem_map.mp (List.mem_of_mem_filter hy)
          cases hfz : (computePlan sel allEvents existing).toUpdate.find?
              (fun pr => pr.1.gid == z.gid) with
          | none =>
            have hyz : y = z := by rw [← hzy]; exact updImage_none now _ z hfz
            rw [hyz] at hky ⊢
            exact hsid_inj z hz r hrmem e.id hky hrkey
          | some q =>
            have hyq : y = recFromEvent now q.2 z.gid := by
              rw [← hzy]; exact updImage_some now _ z q hfz
            have hqmem : q ∈ (computePlan sel allEvents existing).toUpdate :=
              List.mem_of_find?_eq_some hfz
            rw [hyq] at hky
            have hq2e : q.2 = e := hid_inj q.2 (hupd_mem q hqmem).1 e he
              (Option.some.inj hky)
            have hclq := (hupd_mem q hqmem).2
            rw [hq2e] at hclq
            rw [hclq] at hcl
            exact absurd hcl (by simp)
        have hblk : exactLookup base e.id = some r :=
          lastWith_unique_tag exactKey (fun r2 => r2.gid) base e.id hbase_pw r
            hrbase hrkey hbuniq
        have hcnone : exactLookup creates e.id = none :=
          hcreates_none e he (by rw [hcl]; simp)
        refine ⟨r, ?_, hl, hd⟩
        rw [exactLookup_append, hcnone, hblk]
      | update r =>
        have hrmem : r ∈ existing := classify_update_target_mem existing e r hcl
        have hfind := hfind_target e he r hcl
        have himg : updImage now (computePlan sel allEvents existing).toUpdate r =
            recFromEvent now e r.gid := updImage_some now _ r (r, e) hfind
        have hsd : shouldDelete sel (userEventsOf sel allEvents) r = false := by
          rcases hclass2 e he r hcl with hx | ⟨hn, hb⟩
          · exact shouldDelete_false_of_sched sel _ r e.id
              (lastWith_mem exactKey _ existing r hx).2
              (List.any_eq_true.mpr ⟨e, he, by simp⟩)
          · have hbk := (lastWith_mem baseKeyOf _ existing r hb).2
            obtain ⟨c, hc⟩ :=
              Option.isSome_iff_exists.mp (baseKeyOf_courseCode r _ hbk)
            apply shouldDelete_false_of_base sel _ r c hc
            rw [baseKeyOf_eq r _ hbk]
            exact List.any_eq_true.mpr ⟨e, he, by simp⟩
        have hrcbase : recFromEvent now e r.gid ∈ base := by
          have hb := hbase_of r hrmem hsd
          rwa [himg] at hb
        have hbuniq : ∀ y ∈ base, exactKey y = some e.id →
            y = recFromEvent now e r.gid := by
          intro y hy hky
          rw [hbase] at hy
          obtain ⟨z, hz, hzy⟩ := List.mem_map.mp (List.mem_of_mem_filter hy)
          cases hfz : (computePlan sel allEvents existing).toUpdate.find?
              (fun pr => pr.1.gid == z.gid) with
          | none =>
            have hyz : y = z := by rw [← hzy]; exact updImage_none now _ z hfz
            rw [hyz] at hky
            rcases hclass2 e he r hcl with hx | ⟨hn, hb⟩
            · have hrk := (lastWith_mem exactKey _ existing r hx).2
              have hzr : z = r := hsid_inj z hz r hrmem e.id hky hrk
              rw [hzr] at hfz
              rw [hfind] at hfz
              exact Option.noConfusion hfz
            · have hnone := (lastWith_none_iff exactKey e.id existing).mp hn z hz
              exact absurd hky hnone
          | some q =>
            have hyq : y = recFromEvent now q.2 z.gid := by
              rw [← hzy]; exact updImage_some now _ z q hfz
            have hqmem : q ∈ (computePlan sel allEvents existing).toUpdate :=
              List.mem_of_find?_eq_some hfz
            rw [hyq] at hky
            have hq2e : q.2 = e := hid_inj q.2 (hupd_mem q hqmem).1 e he
              (Option.some.inj hky)
            have hclq := (hupd_mem q hqmem).2
            rw [hq2e] at hclq
            rw [hcl] at hclq
            injection hclq with hq1r
            have hpz := List.find?_some hfz
            have hzq : q.1.gid = z.gid := by simpa using hpz
            have hzr : z = r := by
              apply hgid_inj z hz r hrmem
              show z.gid = r.gid
              rw [← hzq, ← hq1r]
            rw [hyq, hq2e, hzr]
        have hblk : exactLookup base e.id = some (recFromEvent now e r.gid) :=
          lastWith_unique_tag exactKey (fun r2 => r2.gid) base e.id hbase_pw _
            hrcbase rfl hbuniq
        have hcnone : exactLookup creates e.id = none :=
          hcreates_none e he (by rw [hcl]; simp)
        refine ⟨recFromEvent now e r.gid, ?_, rfl, strContains_descriptionOf e⟩
        rw [exactLookup_append, hcnone, hblk]
    obtain ⟨rc, hlk, hl, hd⟩ := hmain
    exact classify_exact_noop (base ++ creates) e rc hlk hl hd
  have hdel_all : ∀ r2 ∈ base ++ creates,
      shouldDelete sel (userEventsOf sel allEvents) r2 = false := by
    intro r2 hr2
    rcases List.mem_append.mp hr2 with hb2 | hc2
    · have hb2' := hb2
      rw [hbase] at hb2'
      have hkeep := (List.mem_filter.mp hb2').2
      obtain ⟨z, hz, hzy⟩ := List.mem_map.mp (List.mem_of_mem_filter hb2')
      cases hfz : (computePlan sel allEvents existing).toUpdate.find?
          (fun pr => pr.1.gid == z.gid) with
      | some q =>
        have hr2q : r2 = recFromEvent now q.2 z.gid := by
          rw [← hzy]; exact updImage_some now _ z q hfz
        have hqmem : q ∈ (computePlan sel allEvents existing).toUpdate :=
          List.mem_of_find?_eq_some hfz
        rw [hr2q]
        exact shouldDelete_false_of_sched sel _ _ q.2.id rfl
          (List.any_eq_true.mpr ⟨q.2, (hupd_mem q hqmem).1, by simp⟩)
      | none =>
        have hr2z : r2 = z := by rw [← hzy]; exact updImage_none now _ z hfz
        by_contra hne
        have hsd : shouldDelete sel (userEventsOf sel allEvents) r2 = true := by
          revert hne
          cases shouldDelete sel (userEventsOf sel allEvents) r2 <;> simp
        have hzdel : z ∈ (computePlan sel allEvents existing).toDelete := by
          apply List.mem_filter.mpr
          exact ⟨hz, by rw [← hr2z]; exact hsd⟩
        have hany : ((computePlan sel allEvents existing).toDelete.any
            fun dl => dl.gid = r2.gid) = true := by
          apply List.any_eq_true.mpr
          exact ⟨z, hzdel, by rw [hr2z]; simp⟩
        rw [hany] at hkeep
        exact Bool.noConfusion hkeep
    · rw [hcreates] at hc2
      obtain ⟨pr, hpr, hpr2⟩ := List.mem_map.mp hc2
      have hsnd := enum_snd_mem _ pr hpr
      have hue2 := (hcreate_mem pr.2 hsnd).1
      rw [← hpr2]
      exact shouldDelete_false_of_sched sel _ _ pr.2.id rfl
        (List.any_eq_true.mpr ⟨pr.2, hue2, by simp⟩)
  have hcr2 : (computePlan sel allEvents (base ++ creates)).toCreate = [] := by
    apply List.filter_eq_nil.mpr
    intro e he
    rw [hnoop_all e he]
    simp
  have hup2 : (computePlan sel allEvents (base ++ creates)).toUpdate = [] := by
    apply List.filterMap_eq_nil.mpr
    intro e he
    rw [hnoop_all e he]
  have hdl2 : (computePlan sel allEvents (base ++ creates)).toDelete = [] := by
    apply List.filter_eq_nil.mpr
    intro r2 hr2
    rw [hdel_all r2 hr2]
    simp
  show ((computePlan sel allEvents (base ++ creates)).toCreate.length,
    (computePlan sel allEvents (base ++ creates)).toUpdate.length,
    (computePlan sel allEvents (base ++ creates)).toDelete.length) = (0, 0, 0)
  rw [hcr2, hup2, hdl2]
  rfl

/-- C2 counterexample: the claim promises that a second reconciliation run
right after the first returns zero creates, updates and deletes. Take one
selected event (CS101 section A, 14 Feb 2026, 9:00AM) and one remote record
that carries no scheduleEventId and no courseCode metadata but whose summary
key CS101-A-2026-02-14-9:00 matches the event. The first run matches it only
through the summary fallback, schedules an update for it, and also schedules
it for deletion (the delete filter keeps a record only on id or base-key
metadata, which this record lacks), so after the run the record is gone and
the second run computes one create: counts (1, 0, 0), not (0, 0, 0). -/
theorem claim_C2_counterexample :
    planCounts (computePlan ["CS101-A"]
      [(⟨"EV1", "CS101-A", "CS101", "A", "R1", "Prof", ⟨2026, 1, 14⟩,
        ⟨"9:00AM", "10:30AM"⟩, 1, "Saturday", "", false, false, false⟩ :
          ScheduleEvent)]
      (applyPlan
        [(⟨"g1", "CS101-A", "R2", "", none, none, false, ⟨2026, 1, 14⟩, 9, 0⟩ :
          CalEvent)]
        (computePlan ["CS101-A"]
          [(⟨"EV1", "CS101-A", "CS101", "A", "R1", "Prof", ⟨2026, 1, 14⟩,
            ⟨"9:00AM", "10:30AM"⟩, 1, "Saturday", "", false, false, false⟩ :
              ScheduleEvent)]
          [(⟨"g1", "CS101-A", "R2", "", none, none, false, ⟨2026, 1, 14⟩, 9, 0⟩ :
            CalEvent)])
        (fun n => natStr n) (⟨2026, 1, 14⟩, 9, 0))) = (1, 0, 0) ∧
    (1, 0, 0) ≠ ((0, 0, 0) : Nat × Nat × Nat) := by
  exact ⟨by decide, by decide⟩

/-- C2 witness: a concrete instance of the amended idempotence theorem — one
selected event against an empty remote store; all hygiene hypotheses hold and
the second run computes (0, 0, 0). -/
theorem claim_C2_witness :
    planCounts (computePlan ["CS101-A"]
      [(⟨"EV1", "CS101-A", "CS101", "A", "R1", "Prof", ⟨2026, 1, 14⟩,
        ⟨"9:00AM", "10:30AM"⟩, 1, "Saturday", "", false, false, false⟩ :
          ScheduleEvent)]
      (applyPlan []
        (computePlan ["CS101-A"]
          [(⟨"EV1", "CS101-A", "CS101", "A", "R1", "Prof", ⟨2026, 1, 14⟩,
            ⟨"9:00AM", "10:30AM"⟩, 1, "Saturday", "", false, false, false⟩ :
              ScheduleEvent)] [])
        (fun n => natStr n) (⟨2026, 1, 14⟩, 9, 0))) = (0, 0, 0) :=
  claim_C2_amended ["CS101-A"]
    [(⟨"EV1", "CS101-A", "CS101", "A", "R1", "Prof", ⟨2026, 1, 14⟩,
      ⟨"9:00AM", "10:30AM"⟩, 1, "Saturday", "", false, false, false⟩ :
        ScheduleEvent)] []
    (fun n => natStr n) (⟨2026, 1, 14⟩, 9, 0)
    (by decide) (by decide) (by simp) (by decide)
    List.Pairwise.nil List.Pairwise.nil

end CalScrap
